import Mathlib

/-!
Verification of the chat-session lifecycle, streaming-generation pipeline and
cache contract of the demo RAG backend.

The development shallowly embeds the Python sources:
  * `src/schema.py`    — data model (`ChatStatus`, event payloads, `Attachment`, …)
  * `src/cache.py`     — the in-process `LocalCache` implementation
  * `src/core/chat.py` — `ChatInterface.generate`, `ChatService.chat_workflow`,
                         `RAGService.chat_workflow`, `halt_chat`
  * `src/core/prompt.py` — the prompt templates

Stateful, concurrent code is embedded as a deterministic interpreter producing
an explicit action trace.  External nondeterminism is captured by parameters:
the language-model backend is a function from a message list to a stream
description (its fragments plus whether pulling past the end raises), the
retrieval backend is a function from a query to `Except Unit Attachment`
(`.error` models a raised exception), and concurrent `halt` requests are a
schedule `Nat → Bool` saying whether a halt write lands at each suspension
point that precedes a Status-Store operation of the run.  A halt write landing
between two consecutive store operations of the run is observationally
identical wherever it lands in real time, so this schedule covers every
distinguishable interleaving of `halt_chat` with one `generate` run.
-/

namespace DemoRag

/-! ### Data model (src/schema.py) -/

/-- `Author` (schema.py). -/
structure Author where
  name : String
  institution : String
deriving DecidableEq, Repr

/-- `Document` (schema.py). -/
structure Document where
  idx : Int
  title : String
  authors : List Author
  publicationDate : String
  language : String
  keywords : List String
  publisher : String
  journal : String
deriving DecidableEq, Repr

/-- `Source` (schema.py). -/
structure Source where
  type : String
  id : Int
  url : String
deriving DecidableEq, Repr

/-- `Chunk` (schema.py). -/
structure Chunk where
  id : Int
  doc_id : Int
  text : String
  source : List Source
deriving DecidableEq, Repr

/-- `Attachment` (schema.py): a retrieval result, documents plus chunks. -/
structure Attachment where
  doc : List Document
  chunks : List Chunk
deriving DecidableEq, Repr

/-- `Message` (schema.py).  The `role` field is the Python
`Literal["user", "assistant"]`, embedded as a string. -/
structure Message where
  role : String
  content : String
  attachment : Option Attachment
deriving DecidableEq, Repr

/-- `ChatStatus` (schema.py). -/
inductive ChatStatus where
  | ACTIVE
  | COMPLETED
  | TERMINATED
deriving DecidableEq, Repr

/-- `ChatStatus.value`: ACTIVE = 1, COMPLETED = 0, TERMINATED = -1. -/
def ChatStatus.value : ChatStatus → Int
  | .ACTIVE => 1
  | .COMPLETED => 0
  | .TERMINATED => -1

/-- The event envelopes written to the stream, one constructor per response
class of schema.py (`InitResponse`, `QueryRewriteResponse`, `SearchResponse`,
`AnswerResponse`, `EndResponse`), carrying the payload fields that vary per
run.  `created_at` / `completion_time` are the wall-clock timestamps taken by
pydantic's default factories; the interpreter receives them as parameters. -/
inductive Event where
  | Init (chat_id : String) (message_id : String) (created_at : Nat)
  | QueryRewrite (content : String)
  | Search (data : Attachment)
  | Answer (content : String)
  | End (completion_time : Nat) (end_reason : Int)
deriving DecidableEq, Repr

/-- Is this event an `End` envelope? -/
def Event.isEnd : Event → Bool
  | .End _ _ => true
  | _ => false

/-- Is this event an `Answer` or `Query Rewrite` envelope? -/
def Event.isAnswerOrRewrite : Event → Bool
  | .Answer _ => true
  | .QueryRewrite _ => true
  | _ => false

/-- Is this event a `Search` envelope? -/
def Event.isSearch : Event → Bool
  | .Search _ => true
  | _ => false

/-! ### The in-process store (src/cache.py, class `LocalCache`)

`LocalCache` wraps a Python dict.  A dict is embedded as an association list
in insertion order: assigning to an existing key updates it in place,
assigning a fresh key appends it, and `dict.keys()` enumerates insertion
order. -/

/-- `LocalCache` (cache.py): `self._store: dict[str, Any]`. -/
structure LocalCache (α : Type) where
  _store : List (String × α)
deriving DecidableEq, Repr

namespace LocalCache

/-- `LocalCache.set` (cache.py line 59-60): `self._store[key] = value`.
The `ex` expiry argument is ignored by `LocalCache`, so it is omitted. -/
def set (c : LocalCache α) (key : String) (value : α) : LocalCache α :=
  if c._store.any (fun p => p.1 == key) then
    ⟨c._store.map (fun p => if p.1 == key then (key, value) else p)⟩
  else
    ⟨c._store ++ [(key, value)]⟩

/-- `LocalCache.get` (cache.py line 62-63): `self._store.get(key)`, i.e.
`None` (here `none`) when the key is absent. -/
def get (c : LocalCache α) (key : String) : Option α :=
  (c._store.find? (fun p => p.1 == key)).map (fun p => p.2)

/-- `LocalCache.exists` (cache.py line 65-66): `key in self._store`. -/
def existsKey (c : LocalCache α) (key : String) : Bool :=
  c._store.any (fun p => p.1 == key)

/-- `LocalCache.delete` (cache.py line 68-70): `del self._store[key]` guarded
by a membership test. -/
def delete (c : LocalCache α) (key : String) : LocalCache α :=
  ⟨c._store.filter (fun p => !(p.1 == key))⟩

/-- `LocalCache.keys` (cache.py line 72-79): `*` returns every key, a pattern
ending in `*` matches by the part before the star, anything else is an exact
match. -/
def keys (c : LocalCache α) (pattern : String) : List String :=
  if pattern == "*" then
    c._store.map (fun p => p.1)
  else if pattern.endsWith "*" then
    let pre := pattern.dropRight 1
    ((c._store.map (fun p => p.1)).filter (fun k => k.startsWith pre))
  else
    ((c._store.map (fun p => p.1)).filter (fun k => k == pattern))

/-- `LocalCache.close` (cache.py line 81-82): `self._store.clear()`. -/
def close (_c : LocalCache α) : LocalCache α :=
  ⟨[]⟩

end LocalCache

/-! ### Python string helpers used by `RAGService.remove_think` -/

/-- Python `str.lower()` on one code point, returned as a list because the
mapping is not length-preserving: U+0130 LATIN CAPITAL LETTER I WITH DOT
ABOVE lowers to the two code points U+0069 U+0307 (SpecialCasing.txt — the
only length-changing lowercase mapping in Unicode); U+212A KELVIN SIGN
lowers to U+006B; characters in the ASCII range lower as in ASCII
(`Char.toLower`).  Code points outside this modelled set are left
unchanged, which matches CPython only for code points without a lowercase
mapping; every concrete string a theorem below evaluates `pyLower` on
stays inside the modelled set. -/
def pyLowerChar (c : Char) : List Char :=
  if c.val = 0x130 then [Char.ofNat 0x69, Char.ofNat 0x307]
  else if c.val = 0x212A then [Char.ofNat 0x6B]
  else [c.toLower]

/-- Python `str.lower()`: each code point replaced by its lowercase
mapping (see `pyLowerChar`). -/
def pyLower (s : String) : String :=
  String.mk (s.data.flatMap pyLowerChar)

/-- First index at which `pat` occurs in `hay` as a sublist, Python's
`hay.find(pat)` on code points (with `none` for Python's `-1`). -/
def strFind : List Char → List Char → Option Nat
  | hay, pat =>
    if pat.length ≤ hay.length ∧ hay.take pat.length = pat then some 0
    else
      match hay with
      | [] => none
      | _ :: t => (strFind t pat).map (fun n => n + 1)

/-- Python `text.lower().find(pat)` for an ASCII `pat`. -/
def pyFindLower (text pat : String) : Option Nat :=
  strFind (pyLower text).data pat.data

/-- There is an occurrence of the (ASCII, lower-case) pattern `pat` in
`text`, case-insensitively, starting at code-point index `i`. -/
def occursAt (text pat : String) (i : Nat) : Prop :=
  ((pyLower text).data.drop i).take pat.data.length = pat.data

instance (text pat : String) (i : Nat) : Decidable (occursAt text pat i) := by
  unfold occursAt; infer_instance

/-! ### RAGService helpers (src/core/chat.py) -/

/-- `RAGService.remove_think` (chat.py line 130-133): drop everything up to
and including the first case-insensitive `"</think>"` marker; without the
marker the text passes through unchanged.  `"</think>".length = 8`. -/
def remove_think (text : String) : String :=
  match pyFindLower text "</think>" with
  | some idx => String.mk (text.data.drop (idx + 8))
  | none => text

/-- `RAGService.context_inject` (chat.py line 124-128). -/
def context_inject (origin_query rewritten_query : String) (context : List Chunk) : String :=
  let template :=
    "用户原始问题：" ++ origin_query ++ "\n重写问题：" ++ rewritten_query ++ "\n上下文信息：\n"
  context.foldl (fun acc chunk => acc ++ "- " ++ chunk.text ++ "\n") template

/-- `QUERY_REWRITE_PROMPT.format(query=q)` (prompt.py line 7-11). -/
def QUERY_REWRITE_PROMPT_format (q : String) : String :=
  "\n将以下问题重构为更专业或学术化的表述，保留核心含义：\n\n问题: " ++ q ++
    "\n\n请直接提供重构后的表述，不要附加解释。字数<=30。输出：\n"

/-- `RAG_ANSWER_PROMPT.format(context=c)` (prompt.py line 13-15). -/
def RAG_ANSWER_PROMPT_format (c : String) : String :=
  "\n```\n" ++ c ++ "\n```\n\n根据上下文信息，回答用户问题：\n"

/-! ### The pipeline interpreter (src/core/chat.py)

A `generate` run is interpreted as a deterministic function of
  * the service configuration (workflow kind, LLM backend, retrieval backend),
  * the call arguments (`chat_id`, `message_id`, `messages`),
  * a halt schedule describing which suspension points of the run a concurrent
    `halt_chat(chat_id)` write lands at, and
  * the initial content of the Status Store.
It produces the trace of all observable actions, in program order. -/

/-- One lazily produced backend stream: the fragments it yields, and whether
pulling past the last fragment raises an exception (a raise after `k`
fragments is the stream with `chunks` of length `k` and `raises = true`). -/
structure LLMStream where
  chunks : List String
  raises : Bool
deriving DecidableEq, Repr

/-- The workflow variant: `ChatService` (plain) or `RAGService`. -/
inductive ServiceKind where
  | chat
  | rag
deriving DecidableEq, Repr

/-- A service instance: its workflow kind, its optional LLM client
(`None` in Python reproduces the `"llm_client is not configured"` error),
and the retrieval backend (`RAGService.search_relevant_docs`; an
`Except.error` result models the call raising).  The Status Store (the
`cache` attribute) is threaded through the interpreter state. -/
structure Service where
  kind : ServiceKind
  llm_client : Option (List Message → LLMStream)
  search : String → Except Unit Attachment

/-- An observable action of one `generate` run, in program order.

  * `emit e`        — the generator yields the serialized envelope `e`
                      (a line of the client-visible stream);
  * `storeSet k v`  — the pipeline writes `v` to the Status Store at key `k`
                      (`_set_chat_status` or a direct `cache.set`);
  * `storeGet k r`  — the pipeline reads key `k` outside the per-fragment
                      gating (the finalize read and the End-payload read),
                      observing `r`;
  * `poll k r`      — a per-fragment status poll inside a workflow loop
                      (`chat_status = await self.cache.get(chat_id)`),
                      observing `r`;
  * `haltWrite k`   — a concurrent `halt_chat` writes TERMINATED to `k`;
  * `sentinel`      — the workflow body yields the stop sentinel `None`
                      (dropped by `generate`, never forwarded);
  * `logError`      — an exception was caught and logged
                      (`logger.error`, in either `except` block). -/
inductive Action where
  | emit (e : Event)
  | storeSet (key : String) (value : Int)
  | storeGet (key : String) (result : Option Int)
  | poll (key : String) (result : Option Int)
  | haltWrite (key : String)
  | sentinel
  | logError
deriving DecidableEq, Repr

/-- The client-visible event stream of a trace: the emitted envelopes in
order. -/
def eventsOf (tr : List Action) : List Event :=
  tr.filterMap fun a =>
    match a with
    | .emit e => some e
    | _ => none

/-- Interpreter state: the Status Store content and the index of the next
halt-schedule point. -/
structure St where
  cache : LocalCache Int
  k : Nat
deriving Repr

/-- The environment move possible at each suspension point just before a
store operation of the run: if the schedule fires (and the session id is
non-empty, since `halt_chat` rejects empty ids before touching the store), a
concurrent `halt_chat(chatId)` lands, writing `TERMINATED.value = -1`. -/
def envStep (sched : Nat → Bool) (chatId : String) (st : St) : St × List Action :=
  if sched st.k && !(chatId == "") then
    (⟨st.cache.set chatId (-1), st.k + 1⟩, [Action.haltWrite chatId])
  else
    (⟨st.cache, st.k + 1⟩, [])

/-- Embeds Python's `str(chat_status) == str(v)` (chat.py lines 61, 107, 150,
174) where `chat_status` is a Status-Store read — `None` when the key is
absent, otherwise the integer that was stored — and `v` an integer.  `str` is
injective on integers and `"None"` is not the decimal representation of any
integer, so the comparison holds exactly when the read returned exactly `v`. -/
def pyStrEq : Option Int → Int → Bool
  | none, _ => false
  | some n, v => n == v

/-- Outcome of one gated streaming loop: the stream was exhausted normally,
the loop broke out early on a non-ACTIVE poll, or pulling from the backend
raised. -/
inductive LoopOut where
  | done
  | broke
  | raised
deriving DecidableEq, Repr

/-- Result of a gated streaming loop. -/
structure LoopRes where
  st : St
  delta : List Action
  out : LoopOut

/-- The answer-streaming loop (chat.py lines 105-111 in
`ChatService.chat_workflow`, and the identical STEP 3 loop at lines 172-178
in `RAGService.chat_workflow`): for each fragment pulled from the backend,
re-read the session status; if it is ACTIVE, yield an `Answer` envelope and
continue; otherwise yield the stop sentinel and break.  A backend raise
surfaces as outcome `.raised` (handled by the caller's `except`); after a
break no further fragment is pulled, so a pending raise never fires. -/
def answerLoop (sched : Nat → Bool) (chatId : String) (raises : Bool) :
    List String → St → LoopRes
  | [], st => if raises then ⟨st, [], .raised⟩ else ⟨st, [], .done⟩
  | c :: rest, st =>
    let es := envStep sched chatId st
    let r := es.1.cache.get chatId
    if pyStrEq r 1 then
      let res := answerLoop sched chatId raises rest es.1
      ⟨res.st, es.2 ++ Action.poll chatId r :: Action.emit (Event.Answer c) :: res.delta,
        res.out⟩
    else
      ⟨es.1, es.2 ++ [Action.poll chatId r, Action.sentinel], .broke⟩

/-- Result of the query-rewrite loop: also carries the accumulated
`rewritten_query`. -/
structure RwRes where
  st : St
  delta : List Action
  acc : String
  out : LoopOut

/-- The query-rewrite loop (chat.py lines 148-155 in
`RAGService.chat_workflow`): same gating as `answerLoop`, but each passed
fragment is forwarded as a `Query Rewrite` envelope and appended to the
accumulated rewritten query; on a failed poll the fragment is dropped and the
loop breaks. -/
def rewriteLoop (sched : Nat → Bool) (chatId : String) (raises : Bool) :
    List String → String → St → RwRes
  | [], acc, st => if raises then ⟨st, [], acc, .raised⟩ else ⟨st, [], acc, .done⟩
  | c :: rest, acc, st =>
    let es := envStep sched chatId st
    let r := es.1.cache.get chatId
    if pyStrEq r 1 then
      let res := rewriteLoop sched chatId raises rest (acc ++ c) es.1
      ⟨res.st, es.2 ++ Action.poll chatId r :: Action.emit (Event.QueryRewrite c) :: res.delta,
        res.acc, res.out⟩
    else
      ⟨es.1, es.2 ++ [Action.poll chatId r, Action.sentinel], acc, .broke⟩

/-- Result of one `chat_workflow` generator: final state, its trace delta,
whether an exception escaped the workflow (to `generate`'s `except`), whether
the workflow's own `except` caught an error, and — for the RAG variant — the
rewritten query passed to retrieval and the retrieval call's result, when
those points were reached. -/
structure WfRes where
  st : St
  delta : List Action
  escaped : Bool
  caught : Bool
  rewrittenQuery : Option String
  searchResult : Option (Except Unit Attachment)

/-- The `except` body shared by both workflows (chat.py lines 112-116 and
179-183): log the error, write TERMINATED directly through `cache.set`, and
yield the stop sentinel. -/
def workflowExcept (sched : Nat → Bool) (chatId : String) (st : St) : St × List Action :=
  let es := envStep sched chatId st
  (⟨es.1.cache.set chatId (-1), es.1.k⟩,
    Action.logError :: es.2 ++ [Action.storeSet chatId (-1), Action.sentinel])

/-- `ChatService.chat_workflow` (chat.py lines 95-116): raise on an empty
chat id (escaping to `generate`'s handler), raise-and-catch when no LLM
client is configured, otherwise run the gated answer loop over the backend
stream for the full message history. -/
def ChatService_chat_workflow (svc : Service) (sched : Nat → Bool) (chatId : String)
    (messages : List Message) (st : St) : WfRes :=
  if chatId == "" then
    ⟨st, [], true, false, none, none⟩
  else
    match svc.llm_client with
    | none =>
      let ex := workflowExcept sched chatId st
      ⟨ex.1, ex.2, false, true, none, none⟩
    | some llm =>
      let s := llm messages
      let res := answerLoop sched chatId s.raises s.chunks st
      match res.out with
      | .raised =>
        let ex := workflowExcept sched chatId res.st
        ⟨ex.1, res.delta ++ ex.2, false, true, none, none⟩
      | _ => ⟨res.st, res.delta, false, false, none, none⟩

/-- `RAGService.query_rewrite` (chat.py lines 236-241): format the user
query through `QUERY_REWRITE_PROMPT` and stream the LLM's response. -/
def query_rewrite (llm : List Message → LLMStream) (query : String) : LLMStream :=
  llm [Message.mk "user" (QUERY_REWRITE_PROMPT_format query) none]

/-- STEP 1 of `RAGService.chat_workflow` (chat.py lines 146-155): the gated
rewrite loop over the `query_rewrite` stream, accumulating from `""`. -/
def ragR1 (sched : Nat → Bool) (chatId : String) (llm : List Message → LLMStream)
    (origin : String) (st : St) : RwRes :=
  rewriteLoop sched chatId (query_rewrite llm origin).raises
    (query_rewrite llm origin).chunks "" st

/-- The one-message request of STEP 3 (chat.py lines 165-167): the original
query, the rewritten query and the retrieved chunks injected into
`RAG_ANSWER_PROMPT`. -/
def ragAnswerStream (llm : List Message → LLMStream) (origin rq : String)
    (att : Attachment) : LLMStream :=
  llm [Message.mk "user"
    (RAG_ANSWER_PROMPT_format (context_inject origin rq att.chunks)) none]

/-- STEP 3 of `RAGService.chat_workflow` (chat.py lines 172-178): the gated
answer loop over the context-injected request. -/
def ragR2 (sched : Nat → Bool) (chatId : String) (llm : List Message → LLMStream)
    (origin rq : String) (att : Attachment) (st : St) : LoopRes :=
  answerLoop sched chatId (ragAnswerStream llm origin rq att).raises
    (ragAnswerStream llm origin rq att).chunks st

/-- `RAGService.chat_workflow` (chat.py lines 135-183): query rewrite with
gating, `remove_think`, one retrieval call whose attachment is emitted as a
single `Search` envelope, context injection into `RAG_ANSWER_PROMPT`, then
the gated answer loop; any raise inside the `try` aborts the remaining
stages through the shared `except` body.  `messages[0]` on an empty history
raises (caught by the same handler). -/
def RAGService_chat_workflow (svc : Service) (sched : Nat → Bool) (chatId : String)
    (messages : List Message) (st : St) : WfRes :=
  if chatId == "" then
    ⟨st, [], true, false, none, none⟩
  else
    match svc.llm_client with
    | none =>
      let ex := workflowExcept sched chatId st
      ⟨ex.1, ex.2, false, true, none, none⟩
    | some llm =>
      match messages.head? with
      | none =>
        let ex := workflowExcept sched chatId st
        ⟨ex.1, ex.2, false, true, none, none⟩
      | some m0 =>
        let r1 := ragR1 sched chatId llm m0.content st
        match r1.out with
        | .raised =>
          let ex := workflowExcept sched chatId r1.st
          ⟨ex.1, r1.delta ++ ex.2, false, true, none, none⟩
        | _ =>
          let rq := remove_think r1.acc
          match svc.search rq with
          | .error u =>
            let ex := workflowExcept sched chatId r1.st
            ⟨ex.1, r1.delta ++ ex.2, false, true, some rq, some (Except.error u)⟩
          | .ok att =>
            let r2 := ragR2 sched chatId llm m0.content rq att r1.st
            match r2.out with
            | .raised =>
              let ex := workflowExcept sched chatId r2.st
              ⟨ex.1, r1.delta ++ Action.emit (Event.Search att) :: (r2.delta ++ ex.2),
                false, true, some rq, some (Except.ok att)⟩
            | _ =>
              ⟨r2.st, r1.delta ++ Action.emit (Event.Search att) :: r2.delta,
                false, false, some rq, some (Except.ok att)⟩

/-- Dispatch to the workflow of the service's class. -/
def chat_workflow (svc : Service) (sched : Nat → Bool) (chatId : String)
    (messages : List Message) (st : St) : WfRes :=
  match svc.kind with
  | .chat => ChatService_chat_workflow svc sched chatId messages st
  | .rag => RAGService_chat_workflow svc sched chatId messages st

/-- Result of one full `generate` run. -/
structure RunResult where
  /-- The full action trace, in program order. -/
  trace : List Action
  /-- The Status Store content when the run finishes. -/
  cache : LocalCache Int
  /-- The status read by the finalize step (chat.py line 60). -/
  finStatus : Option Int
  /-- The status read to build the End payload (chat.py line 64). -/
  endStatus : Option Int
  /-- Whether an exception was raised during the workflow body (caught either
  by the workflow's own handler or by `generate`'s). -/
  errored : Bool
  /-- For a RAG run that reached retrieval: the rewritten query used. -/
  rewrittenQuery : Option String
  /-- For a RAG run that reached retrieval: the retrieval call's result. -/
  searchResult : Option (Except Unit Attachment)

/-- Step 2 of `generate` (chat.py lines 47-48): `if chat_id and self.cache:`
write ACTIVE. -/
def beginPart (sched : Nat → Bool) (chatId : String) (st : St) : St × List Action :=
  if chatId == "" then (st, [])
  else
    let es := envStep sched chatId st
    (⟨es.1.cache.set chatId 1, es.1.k⟩, es.2 ++ [Action.storeSet chatId 1])

/-- Result of the tail of a `generate` run (its `except`/`finally` blocks and
the End emission). -/
structure FinishRes where
  st : St
  delta : List Action
  fin : Option Int
  en : Option Int

/-- The `except` block of `generate` (chat.py lines 56-58), run only when an
exception escaped the workflow body: log it and write TERMINATED. -/
def exceptPart (sched : Nat → Bool) (chatId : String) (escaped : Bool) (st : St) :
    St × List Action :=
  if escaped then
    let es := envStep sched chatId st
    (⟨es.1.cache.set chatId (-1), es.1.k⟩,
      Action.logError :: es.2 ++ [Action.storeSet chatId (-1)])
  else (st, [])

/-- The `finally` block of `generate` (chat.py lines 59-62): read the status
(`fin`, the third component); unless it reads TERMINATED, write COMPLETED. -/
def finallyPart (sched : Nat → Bool) (chatId : String) (st : St) :
    St × List Action × Option Int :=
  let es1 := envStep sched chatId st
  let fin := es1.1.cache.get chatId
  if pyStrEq fin (-1) then
    (es1.1, es1.2 ++ [Action.storeGet chatId fin], fin)
  else
    let es2 := envStep sched chatId es1.1
    (⟨es2.1.cache.set chatId 0, es2.1.k⟩,
      es1.2 ++ Action.storeGet chatId fin :: es2.2 ++ [Action.storeSet chatId 0],
      fin)

/-- The End emission of `generate` (chat.py lines 64-65): read the status
(`en`, the third component) and yield the End envelope built by
`EndResponse.from_status` with timestamp `t1`.  The stored statuses are
integers, so `from_status` returns the read value itself as the
`end_reason`; on an absent read (`None`) it would raise (`None` has no
`.value` and `int(None)` fails), in which case no End envelope is yielded. -/
def endPart (sched : Nat → Bool) (chatId : String) (t1 : Nat) (st : St) :
    St × List Action × Option Int :=
  let es3 := envStep sched chatId st
  let en := es3.1.cache.get chatId
  (es3.1,
    es3.2 ++ Action.storeGet chatId en ::
      (match en with
       | some r => [Action.emit (Event.End t1 r)]
       | none => []),
    en)

/-- The tail of `generate` (chat.py lines 56-65), entered once the workflow
body has finished or an exception has escaped it: the `except` block (when
an exception escaped), the `finally` block, and the End emission. -/
def finishRun (sched : Nat → Bool) (chatId : String) (escaped : Bool) (t1 : Nat)
    (st : St) : FinishRes :=
  let ex := exceptPart sched chatId escaped st
  let fp := finallyPart sched chatId ex.1
  let ep := endPart sched chatId t1 fp.1
  ⟨ep.1, ex.2 ++ (fp.2.1 ++ ep.2.1), fp.2.2, ep.2.2⟩

/-- `ChatInterface.generate` (chat.py lines 38-65):

1.  build the `InitResponse` (timestamp `t0`);
2.  if `chat_id` is non-empty, write ACTIVE to the Status Store
    (`beginPart`);
3.  yield the Init envelope;
4.  forward the workflow body's non-`None` yields (`chat_workflow`);
5.  run the `except`/`finally` tail and End emission (`finishRun`). -/
def generate (svc : Service) (chatId messageId : String) (messages : List Message)
    (sched : Nat → Bool) (c0 : LocalCache Int) (t0 t1 : Nat) : RunResult :=
  let b := beginPart sched chatId ⟨c0, 0⟩
  let w := chat_workflow svc sched chatId messages b.1
  let f := finishRun sched chatId w.escaped t1 w.st
  { trace := b.2 ++ Action.emit (Event.Init chatId messageId t0) :: (w.delta ++ f.delta)
    cache := f.st.cache
    finStatus := f.fin
    endStatus := f.en
    errored := w.escaped || w.caught
    rewrittenQuery := w.rewrittenQuery
    searchResult := w.searchResult }

/-- `ChatInterface.halt_chat` (chat.py lines 67-75): reject an empty chat id
with a `ValueError` (`Except.error`) before touching the store, otherwise
write TERMINATED. -/
def halt_chat (cache : LocalCache Int) (chatId : String) :
    Except Unit (LocalCache Int) :=
  if chatId == "" then .error ()
  else .ok (cache.set chatId (-1))

/-- The finalize step of `generate` (chat.py lines 60-62) as a store
transformer: read the status; unless it reads TERMINATED, write COMPLETED. -/
def finalizeStep (cache : LocalCache Int) (chatId : String) : LocalCache Int :=
  if pyStrEq (cache.get chatId) (-1) then cache else cache.set chatId 0

/-- A session-state-machine operation other than a new `begin`: a `halt_chat`
call or a finalize step. -/
inductive SessionOp where
  | halt
  | finalize
deriving DecidableEq, Repr

/-- Apply one session operation to the store (a failed `halt_chat` — empty
chat id — leaves the store untouched, since it raises before any mutation). -/
def applyOp (chatId : String) (c : LocalCache Int) : SessionOp → LocalCache Int
  | .halt =>
    match halt_chat c chatId with
    | .ok c2 => c2
    | .error _ => c
  | .finalize => finalizeStep c chatId

/-! ### Trace predicates -/

/-- Is this action the emission of an Init envelope? -/
def isInitEmit : Action → Bool
  | .emit (.Init _ _ _) => true
  | _ => false

/-- Is this action a Status-Store operation performed by the pipeline itself
(a write, a read, or a per-fragment poll — not a concurrent halt)? -/
def isPipelineStoreOp : Action → Bool
  | .storeSet _ _ => true
  | .storeGet _ _ => true
  | .poll _ _ => true
  | _ => false

/-- Is this action the emission of an Answer or Query Rewrite envelope? -/
def isAQRemit : Action → Bool
  | .emit e => e.isAnswerOrRewrite
  | _ => false

/-- Is this action an emission at all? -/
def isEmit : Action → Bool
  | .emit _ => true
  | _ => false

/-- The property asserted by the spec for C2: the Init envelope is emitted
strictly before the pipeline performs any read or write on the Status Store
(`List.findIdx` returns the list's length when no element matches). -/
def initBeforeStoreOps (tr : List Action) : Prop :=
  tr.findIdx isInitEmit < tr.findIdx isPipelineStoreOp

instance (tr : List Action) : Decidable (initBeforeStoreOps tr) := by
  unfold initBeforeStoreOps; infer_instance

/-- The bundle of safety properties of one `chat_workflow` body run from
state `entrySt`, used by the pipeline-level theorems:

1. the workflow never emits an End envelope;
2. after any concurrent halt write inside the workflow, no Answer or
   Query Rewrite envelope is emitted, and the workflow leaves the session
   TERMINATED;
3. when the workflow's `except` handler ran, the error was logged;
4. after the error log, the workflow emits nothing further and writes
   TERMINATED;
5. the only Status-Store writes the workflow itself performs are
   TERMINATED writes to its own session;
6. with no concurrent halt and an ACTIVE session, an error-free workflow
   leaves the store untouched;
7. when the retrieval call succeeded, exactly one Search envelope carrying
   the returned attachment is emitted. -/
def WfProps (sched : Nat → Bool) (chatId : String) (entrySt : St) (w : WfRes) : Prop :=
  (∀ e, Action.emit e ∈ w.delta → e.isEnd = false) ∧
  (∀ d1 d2 key, w.delta = d1 ++ Action.haltWrite key :: d2 →
      key = chatId ∧ (∀ a ∈ d2, isAQRemit a = false) ∧
      w.st.cache.get chatId = some (-1)) ∧
  (w.caught = true → Action.logError ∈ w.delta) ∧
  (∀ d1 d2, w.delta = d1 ++ Action.logError :: d2 →
      (∀ e, Action.emit e ∉ d2) ∧ Action.storeSet chatId (-1) ∈ d2) ∧
  (∀ k v, Action.storeSet k v ∈ w.delta → k = chatId ∧ v = -1) ∧
  ((∀ k, sched k = false) → entrySt.cache.get chatId = some 1 → w.caught = false →
      w.st.cache = entrySt.cache) ∧
  (∀ att, w.searchResult = some (Except.ok att) →
      (eventsOf w.delta).filter Event.isSearch = [Event.Search att])

/-! ### Concrete fixtures used by witnesses and counterexamples -/

/-- A mock streaming backend producing the three fragments of spec
scenario B. -/
def exLLM : List Message → LLMStream := fun _ => ⟨["Hel", "lo ", "world"], false⟩

/-- A mock streaming backend that yields one fragment and then raises. -/
def exLLMerr : List Message → LLMStream := fun _ => ⟨["a"], true⟩

/-- A mock retrieval result with one document and one chunk (spec
scenario D). -/
def exAttachment : Attachment :=
  ⟨[⟨1, "t", [⟨"a", "i"⟩], "2024", "en", ["k"], "p", "j"⟩],
    [⟨1, 1, "chunktext", [⟨"document", 1, "u"⟩]⟩]⟩

/-- A mock retrieval backend that always succeeds with `exAttachment`. -/
def exSearch : String → Except Unit Attachment := fun _ => Except.ok exAttachment

/-- A mock retrieval backend that always raises. -/
def exSearchFail : String → Except Unit Attachment := fun _ => Except.error ()

/-- A plain `ChatService` over the three-fragment mock backend. -/
def svcChat : Service := ⟨.chat, some exLLM, exSearchFail⟩

/-- A plain `ChatService` whose backend raises after one fragment. -/
def svcChatErr : Service := ⟨.chat, some exLLMerr, exSearchFail⟩

/-- A `RAGService` over the mock backends. -/
def svcRag : Service := ⟨.rag, some exLLM, exSearch⟩

/-- A one-message history. -/
def exMsgs : List Message := [⟨"user", "hi", none⟩]

/-- The empty halt schedule: no concurrent halt ever lands. -/
def noHalt : Nat → Bool := fun _ => false

/-- The halt schedule where exactly one halt lands, at suspension point `n`. -/
def haltAt (n : Nat) : Nat → Bool := fun k => k == n

/-- An empty Status Store. -/
def emptyCache : LocalCache Int := ⟨[]⟩

/-! ### Basic lemmas -/

/-- Splitting a decomposition `a ++ b = d1 ++ x :: d2` according to which
side the distinguished element `x` lies on. -/
theorem append_split {α : Type} {a b d1 d2 : List α} {x : α}
    (h : a ++ b = d1 ++ x :: d2) :
    (∃ e2, a = d1 ++ x :: e2 ∧ d2 = e2 ++ b) ∨
    (∃ e1, d1 = a ++ e1 ∧ b = e1 ++ x :: d2) := by
  induction a generalizing d1 with
  | nil =>
    right
    exact ⟨d1, rfl, by simpa using h⟩
  | cons y a ih =>
    cases d1 with
    | nil =>
      left
      simp only [List.nil_append, List.cons_append, List.cons.injEq] at h ⊢
      exact ⟨a, ⟨h.1, rfl⟩, h.2.symm⟩
    | cons z d1 =>
      simp only [List.cons_append, List.cons.injEq] at h
      rcases ih h.2 with ⟨e2, he, hd⟩ | ⟨e1, he, hb⟩
      · exact Or.inl ⟨e2, by simp [h.1, he], hd⟩
      · exact Or.inr ⟨e1, by simp [h.1, he], hb⟩

theorem find?_update {α : Type} (t : List (String × α)) (k : String) (v : α)
    (h : t.any (fun p => p.1 == k) = true) :
    (t.map (fun p => if p.1 == k then (k, v) else p)).find? (fun p => p.1 == k) =
      some (k, v) := by
  induction t with
  | nil => simp at h
  | cons p t ih =>
    by_cases hp : p.1 == k
    · simp [List.find?, hp]
    · simp only [List.any_cons, hp, Bool.false_or] at h
      simpa [List.find?, hp] using ih h

theorem find?_append_fresh {α : Type} (t : List (String × α)) (k : String) (v : α)
    (h : t.any (fun p => p.1 == k) = false) :
    (t ++ [(k, v)]).find? (fun p => p.1 == k) = some (k, v) := by
  induction t with
  | nil => simp [List.find?]
  | cons p t ih =>
    simp only [List.any_cons, Bool.or_eq_false_iff] at h
    simp only [List.cons_append, List.find?, h.1]
    exact ih h.2

/-- In `x :: l = e1 ++ y :: d2` with `x ≠ y`, the distinguished `y` lies in
the tail. -/
theorem cons_split {α : Type} {x y : α} {l e1 d2 : List α}
    (h : x :: l = e1 ++ y :: d2) (hxy : x ≠ y) :
    ∃ e1', e1 = x :: e1' ∧ l = e1' ++ y :: d2 := by
  cases e1 with
  | nil =>
    simp only [List.nil_append, List.cons.injEq] at h
    exact absurd h.1 hxy
  | cons a e1' =>
    simp only [List.cons_append, List.cons.injEq] at h
    exact ⟨e1', by rw [h.1], h.2⟩

theorem singleton_split {α : Type} {z y : α} {d1 d2 : List α}
    (h : [z] = d1 ++ y :: d2) : d1 = [] ∧ z = y ∧ d2 = [] := by
  cases d1 with
  | nil =>
    simp only [List.nil_append, List.cons.injEq] at h
    exact ⟨rfl, h.1, h.2.symm⟩
  | cons a d1 =>
    simp only [List.cons_append, List.cons.injEq] at h
    exact absurd h.2.symm (by simp)

theorem nil_split {α : Type} {y : α} {d1 d2 : List α}
    (h : ([] : List α) = d1 ++ y :: d2) : False := by
  cases d1 <;> simp at h

theorem mem_of_split {α : Type} {a d1 d2 : List α} {x : α} (h : a = d1 ++ x :: d2) :
    x ∈ a := by
  rw [h]
  exact List.mem_append_right d1 (List.mem_cons_self x d2)

theorem LocalCache.get_set_self {α : Type} (c : LocalCache α) (k : String) (v : α) :
    (c.set k v).get k = some v := by
  unfold LocalCache.set LocalCache.get
  by_cases h : c._store.any (fun p => p.1 == k)
  · rw [if_pos h]
    show ((c._store.map fun p => if p.1 == k then (k, v) else p).find?
        (fun p => p.1 == k)).map (fun p => p.2) = some v
    rw [find?_update c._store k v h]
    rfl
  · rw [if_neg h]
    show ((c._store ++ [(k, v)]).find? (fun p => p.1 == k)).map (fun p => p.2) = some v
    rw [find?_append_fresh c._store k v
      (by simp only [Bool.not_eq_true] at h; exact h)]
    rfl

theorem eventsOf_append (a b : List Action) :
    eventsOf (a ++ b) = eventsOf a ++ eventsOf b :=
  List.filterMap_append a b _

theorem envStep_delta (sched : Nat → Bool) (chatId : String) (st : St) :
    (envStep sched chatId st).2 = [] ∨
    (envStep sched chatId st).2 = [Action.haltWrite chatId] := by
  unfold envStep; split <;> simp

theorem envStep_get (sched : Nat → Bool) (chatId : String) (st : St) :
    ((envStep sched chatId st).1.cache.get chatId = st.cache.get chatId) ∨
    ((envStep sched chatId st).1.cache.get chatId = some (-1)) := by
  unfold envStep; split
  · exact Or.inr (LocalCache.get_set_self ..)
  · exact Or.inl rfl

theorem envStep_get_term {sched : Nat → Bool} {chatId : String} {st : St}
    (h : st.cache.get chatId = some (-1)) :
    (envStep sched chatId st).1.cache.get chatId = some (-1) := by
  rcases envStep_get sched chatId st with h1 | h1 <;> simp [h1, h]

theorem envStep_noHalt {sched : Nat → Bool} (hs : ∀ k, sched k = false)
    (chatId : String) (st : St) :
    envStep sched chatId st = (⟨st.cache, st.k + 1⟩, []) := by
  unfold envStep; simp [hs]

theorem mem_envStep {sched : Nat → Bool} {chatId : String} {st : St} {a : Action}
    (h : a ∈ (envStep sched chatId st).2) : a = Action.haltWrite chatId := by
  rcases envStep_delta sched chatId st with h2 | h2 <;> rw [h2] at h
  · exact absurd h (List.not_mem_nil a)
  · simpa using h

theorem envStep_halt_get {sched : Nat → Bool} {chatId : String} {st : St}
    (h : (envStep sched chatId st).2 = [Action.haltWrite chatId]) :
    (envStep sched chatId st).1.cache.get chatId = some (-1) := by
  by_cases hc : sched st.k && !(chatId == "")
  · unfold envStep; rw [if_pos hc]; exact LocalCache.get_set_self ..
  · unfold envStep at h; rw [if_neg hc] at h; simp at h

theorem emit_mem_eventsOf {e : Event} {l : List Action} (h : Action.emit e ∈ l) :
    e ∈ eventsOf l := by
  unfold eventsOf
  exact List.mem_filterMap.mpr ⟨Action.emit e, h, rfl⟩

theorem pyStrEq_one (st : Option Int) : pyStrEq st 1 = true ↔ st = some 1 := by
  cases st with
  | none => simp [pyStrEq]
  | some n =>
    simp only [pyStrEq, beq_iff_eq, Option.some.injEq]

theorem pyStrEq_term (st : Option Int) : pyStrEq st (-1) = true ↔ st = some (-1) := by
  cases st with
  | none => simp [pyStrEq]
  | some n =>
    simp only [pyStrEq, beq_iff_eq, Option.some.injEq]

/-! ### Lemmas about the gated streaming loops -/

theorem answerLoop_nil (sched : Nat → Bool) (chatId : String) (raises : Bool)
    (st : St) :
    answerLoop sched chatId raises [] st =
      if raises then ⟨st, [], .raised⟩ else ⟨st, [], .done⟩ := by
  rfl

theorem answerLoop_cons_pos {sched : Nat → Bool} {chatId : String} {raises : Bool}
    {c : String} {rest : List String} {st : St}
    (hg : pyStrEq ((envStep sched chatId st).1.cache.get chatId) 1 = true) :
    answerLoop sched chatId raises (c :: rest) st =
      ⟨(answerLoop sched chatId raises rest (envStep sched chatId st).1).st,
        (envStep sched chatId st).2 ++
          Action.poll chatId ((envStep sched chatId st).1.cache.get chatId) ::
          Action.emit (Event.Answer c) ::
          (answerLoop sched chatId raises rest (envStep sched chatId st).1).delta,
        (answerLoop sched chatId raises rest (envStep sched chatId st).1).out⟩ := by
  simp only [answerLoop, hg, if_true]

theorem answerLoop_cons_neg {sched : Nat → Bool} {chatId : String} {raises : Bool}
    {c : String} {rest : List String} {st : St}
    (hg : pyStrEq ((envStep sched chatId st).1.cache.get chatId) 1 = false) :
    answerLoop sched chatId raises (c :: rest) st =
      ⟨(envStep sched chatId st).1,
        (envStep sched chatId st).2 ++
          [Action.poll chatId ((envStep sched chatId st).1.cache.get chatId),
            Action.sentinel],
        .broke⟩ := by
  simp only [answerLoop, hg, Bool.false_eq_true, if_false]

theorem answerLoop_emits (sched : Nat → Bool) (chatId : String) (raises : Bool) :
    ∀ (chunks : List String) (st : St) (e : Event),
      Action.emit e ∈ (answerLoop sched chatId raises chunks st).delta →
      ∃ s, e = Event.Answer s := by
  intro chunks
  induction chunks with
  | nil =>
    intro st e h
    rw [answerLoop_nil] at h
    split at h <;> simp at h
  | cons c rest ih =>
    intro st e h
    by_cases hg : pyStrEq ((envStep sched chatId st).1.cache.get chatId) 1 = true
    · rw [answerLoop_cons_pos hg] at h
      simp only [List.mem_append, List.mem_cons] at h
      rcases h with h | h | h | h
      · exact absurd (mem_envStep h) (by simp)
      · exact absurd h (by simp)
      · exact ⟨c, by simpa using h⟩
      · exact ih _ e h
    · rw [Bool.not_eq_true] at hg
      rw [answerLoop_cons_neg hg] at h
      simp only [List.mem_append, List.mem_cons, List.not_mem_nil, or_false] at h
      rcases h with h | h | h
      · exact absurd (mem_envStep h) (by simp)
      · exact absurd h (by simp)
      · exact absurd h (by simp)

theorem answerLoop_get (sched : Nat → Bool) (chatId : String) (raises : Bool) :
    ∀ (chunks : List String) (st : St),
      (answerLoop sched chatId raises chunks st).st.cache.get chatId =
          st.cache.get chatId ∨
      (answerLoop sched chatId raises chunks st).st.cache.get chatId = some (-1) := by
  intro chunks
  induction chunks with
  | nil =>
    intro st
    rw [answerLoop_nil]
    split <;> exact Or.inl rfl
  | cons c rest ih =>
    intro st
    by_cases hg : pyStrEq ((envStep sched chatId st).1.cache.get chatId) 1 = true
    · rw [answerLoop_cons_pos hg]
      rcases ih (envStep sched chatId st).1 with h | h
      · rw [h]; exact envStep_get sched chatId st
      · exact Or.inr h
    · rw [Bool.not_eq_true] at hg
      rw [answerLoop_cons_neg hg]
      exact envStep_get sched chatId st

theorem answerLoop_term (sched : Nat → Bool) (chatId : String) (raises : Bool) :
    ∀ (chunks : List String) (st : St),
      st.cache.get chatId = some (-1) →
      (∀ e, Action.emit e ∉ (answerLoop sched chatId raises chunks st).delta) ∧
      (answerLoop sched chatId raises chunks st).st.cache.get chatId = some (-1) := by
  intro chunks
  induction chunks with
  | nil =>
    intro st h
    rw [answerLoop_nil]
    split <;> exact ⟨by simp, h⟩
  | cons c rest ih =>
    intro st h
    have hr : (envStep sched chatId st).1.cache.get chatId = some (-1) :=
      envStep_get_term h
    have hg : pyStrEq ((envStep sched chatId st).1.cache.get chatId) 1 = false := by
      rw [hr]; rfl
    rw [answerLoop_cons_neg hg]
    refine ⟨?_, hr⟩
    intro e he
    simp only [List.mem_append, List.mem_cons, List.not_mem_nil, or_false] at he
    rcases he with he | he | he
    · exact absurd (mem_envStep he) (by simp)
    · exact absurd he (by simp)
    · exact absurd he (by simp)

theorem answerLoop_halt (sched : Nat → Bool) (chatId : String) (raises : Bool) :
    ∀ (chunks : List String) (st : St) (d1 d2 : List Action) (key : String),
      (answerLoop sched chatId raises chunks st).delta =
        d1 ++ Action.haltWrite key :: d2 →
      key = chatId ∧ d2 = [Action.poll chatId (some (-1)), Action.sentinel] ∧
      (answerLoop sched chatId raises chunks st).out = .broke ∧
      (answerLoop sched chatId raises chunks st).st.cache.get chatId = some (-1) := by
  intro chunks
  induction chunks with
  | nil =>
    intro st d1 d2 key h
    rw [answerLoop_nil] at h
    split at h <;> exact absurd h nil_split
  | cons c rest ih =>
    intro st d1 d2 key h
    by_cases hg : pyStrEq ((envStep sched chatId st).1.cache.get chatId) 1 = true
    · rw [answerLoop_cons_pos hg] at h ⊢
      rcases append_split h with ⟨e2, he, _⟩ | ⟨e1, _, hb⟩
      · exfalso
        have hm := mem_envStep (mem_of_split he)
        have h2 : (envStep sched chatId st).2 = [Action.haltWrite chatId] := by
          rcases envStep_delta sched chatId st with h2 | h2
          · rw [h2] at he; exact absurd he nil_split
          · exact h2
        rw [envStep_halt_get h2] at hg
        simp [pyStrEq] at hg
      · obtain ⟨e1', _, hb1⟩ := cons_split hb (by simp)
        obtain ⟨e1'', _, hb2⟩ := cons_split hb1 (by simp)
        exact ih _ _ _ _ hb2
    · rw [Bool.not_eq_true] at hg
      rw [answerLoop_cons_neg hg] at h ⊢
      rcases append_split h with ⟨e2, he, hd⟩ | ⟨e1, _, hb⟩
      · have h2 : (envStep sched chatId st).2 = [Action.haltWrite chatId] := by
          rcases envStep_delta sched chatId st with h2 | h2
          · rw [h2] at he; exact absurd he nil_split
          · exact h2
        have hget := envStep_halt_get h2
        rw [h2] at he
        obtain ⟨hd1, hk, he2⟩ := singleton_split he
        refine ⟨by injection hk.symm, ?_, rfl, hget⟩
        rw [hd, he2, hget]
        rfl
      · exfalso
        obtain ⟨e1', _, hb1⟩ := cons_split hb (by simp)
        obtain ⟨e1'', _, hb2⟩ := cons_split hb1 (by simp)
        exact nil_split hb2

theorem answerLoop_poll (sched : Nat → Bool) (chatId : String) (raises : Bool) :
    ∀ (chunks : List String) (st : St) (d1 d2 : List Action) (key : String)
      (r : Option Int),
      (answerLoop sched chatId raises chunks st).delta =
        d1 ++ Action.poll key r :: d2 →
      pyStrEq r 1 = false → d2 = [Action.sentinel] := by
  intro chunks
  induction chunks with
  | nil =>
    intro st d1 d2 key r h _
    rw [answerLoop_nil] at h
    split at h <;> exact absurd h nil_split
  | cons c rest ih =>
    intro st d1 d2 key r h hr
    by_cases hg : pyStrEq ((envStep sched chatId st).1.cache.get chatId) 1 = true
    · rw [answerLoop_cons_pos hg] at h
      rcases append_split h with ⟨e2, he, _⟩ | ⟨e1, _, hb⟩
      · exact absurd (mem_envStep (mem_of_split he)) (by simp)
      · cases e1 with
        | nil =>
          exfalso
          simp only [List.nil_append, List.cons.injEq] at hb
          obtain ⟨hp, _⟩ := hb
          injection hp with hk hv
          rw [hv] at hg
          rw [hg] at hr
          simp at hr
        | cons a e1' =>
          simp only [List.cons_append, List.cons.injEq] at hb
          obtain ⟨e1'', _, hb2⟩ := cons_split hb.2 (by simp)
          exact ih _ _ _ _ _ hb2 hr
    · rw [Bool.not_eq_true] at hg
      rw [answerLoop_cons_neg hg] at h
      rcases append_split h with ⟨e2, he, _⟩ | ⟨e1, _, hb⟩
      · exact absurd (mem_envStep (mem_of_split he)) (by simp)
      · cases e1 with
        | nil =>
          simp only [List.nil_append, List.cons.injEq] at hb
          exact hb.2.symm
        | cons a e1' =>
          exfalso
          simp only [List.cons_append, List.cons.injEq] at hb
          obtain ⟨e1'', _, hb2⟩ := cons_split hb.2 (by simp)
          exact nil_split hb2

theorem answerLoop_emit_after (sched : Nat → Bool) (chatId : String) (raises : Bool) :
    ∀ (chunks : List String) (st : St) (d1 d2 : List Action) (e : Event),
      (answerLoop sched chatId raises chunks st).delta =
        d1 ++ Action.emit e :: d2 →
      ∃ d0, d1 = d0 ++ [Action.poll chatId (some 1)] := by
  intro chunks
  induction chunks with
  | nil =>
    intro st d1 d2 e h
    rw [answerLoop_nil] at h
    split at h <;> exact absurd h nil_split
  | cons c rest ih =>
    intro st d1 d2 e h
    by_cases hg : pyStrEq ((envStep sched chatId st).1.cache.get chatId) 1 = true
    · have hone : (envStep sched chatId st).1.cache.get chatId = some 1 :=
        (pyStrEq_one _).mp hg
      rw [answerLoop_cons_pos hg] at h
      rcases append_split h with ⟨e2, he, _⟩ | ⟨e1, hd1, hb⟩
      · exact absurd (mem_envStep (mem_of_split he)) (by simp)
      · cases e1 with
        | nil =>
          simp only [List.nil_append, List.cons.injEq] at hb
          exact absurd hb.1 (by simp)
        | cons a e1' =>
          simp only [List.cons_append, List.cons.injEq] at hb
          cases e1' with
          | nil =>
            simp only [List.nil_append, List.cons.injEq] at hb
            refine ⟨(envStep sched chatId st).2, ?_⟩
            rw [hd1, ← hb.1, hone]
          | cons b e1'' =>
            simp only [List.cons_append, List.cons.injEq] at hb
            obtain ⟨d0, hd0⟩ := ih _ _ _ _ hb.2.2
            refine ⟨(envStep sched chatId st).2 ++ a :: b :: d0, ?_⟩
            rw [hd1, hd0]
            simp
    · rw [Bool.not_eq_true] at hg
      rw [answerLoop_cons_neg hg] at h
      rcases append_split h with ⟨e2, he, _⟩ | ⟨e1, _, hb⟩
      · exact absurd (mem_envStep (mem_of_split he)) (by simp)
      · exfalso
        cases e1 with
        | nil => simp at hb
        | cons a e1' =>
          simp only [List.cons_append, List.cons.injEq] at hb
          obtain ⟨e1'', _, hb2⟩ := cons_split hb.2 (by simp)
          exact nil_split hb2

theorem answerLoop_noHalt {sched : Nat → Bool} (hs : ∀ k, sched k = false)
    (chatId : String) (raises : Bool) :
    ∀ (chunks : List String) (st : St),
      st.cache.get chatId = some 1 →
      (answerLoop sched chatId raises chunks st).st.cache = st.cache := by
  intro chunks
  induction chunks with
  | nil =>
    intro st _
    rw [answerLoop_nil]
    split <;> rfl
  | cons c rest ih =>
    intro st h
    have hes : envStep sched chatId st = (⟨st.cache, st.k + 1⟩, []) :=
      envStep_noHalt hs chatId st
    have hget : (envStep sched chatId st).1.cache.get chatId = some 1 := by
      rw [hes]; exact h
    have hg : pyStrEq ((envStep sched chatId st).1.cache.get chatId) 1 = true := by
      rw [hget]; rfl
    rw [answerLoop_cons_pos hg]
    have := ih (envStep sched chatId st).1 hget
    rw [this, hes]

theorem rewriteLoop_nil (sched : Nat → Bool) (chatId : String) (raises : Bool)
    (acc : String) (st : St) :
    rewriteLoop sched chatId raises [] acc st =
      if raises then ⟨st, [], acc, .raised⟩ else ⟨st, [], acc, .done⟩ := by
  rfl

theorem rewriteLoop_cons_pos {sched : Nat → Bool} {chatId : String} {raises : Bool}
    {c : String} {rest : List String} {acc : String} {st : St}
    (hg : pyStrEq ((envStep sched chatId st).1.cache.get chatId) 1 = true) :
    rewriteLoop sched chatId raises (c :: rest) acc st =
      ⟨(rewriteLoop sched chatId raises rest (acc ++ c) (envStep sched chatId st).1).st,
        (envStep sched chatId st).2 ++
          Action.poll chatId ((envStep sched chatId st).1.cache.get chatId) ::
          Action.emit (Event.QueryRewrite c) ::
          (rewriteLoop sched chatId raises rest (acc ++ c)
            (envStep sched chatId st).1).delta,
        (rewriteLoop sched chatId raises rest (acc ++ c) (envStep sched chatId st).1).acc,
        (rewriteLoop sched chatId raises rest (acc ++ c)
          (envStep sched chatId st).1).out⟩ := by
  simp only [rewriteLoop, hg, if_true]

theorem rewriteLoop_cons_neg {sched : Nat → Bool} {chatId : String} {raises : Bool}
    {c : String} {rest : List String} {acc : String} {st : St}
    (hg : pyStrEq ((envStep sched chatId st).1.cache.get chatId) 1 = false) :
    rewriteLoop sched chatId raises (c :: rest) acc st =
      ⟨(envStep sched chatId st).1,
        (envStep sched chatId st).2 ++
          [Action.poll chatId ((envStep sched chatId st).1.cache.get chatId),
            Action.sentinel],
        acc, .broke⟩ := by
  simp only [rewriteLoop, hg, Bool.false_eq_true, if_false]

theorem rewriteLoop_emits (sched : Nat → Bool) (chatId : String) (raises : Bool) :
    ∀ (chunks : List String) (acc : String) (st : St) (e : Event),
      Action.emit e ∈ (rewriteLoop sched chatId raises chunks acc st).delta →
      ∃ s, e = Event.QueryRewrite s := by
  intro chunks
  induction chunks with
  | nil =>
    intro acc st e h
    rw [rewriteLoop_nil] at h
    split at h <;> simp at h
  | cons c rest ih =>
    intro acc st e h
    by_cases hg : pyStrEq ((envStep sched chatId st).1.cache.get chatId) 1 = true
    · rw [rewriteLoop_cons_pos hg] at h
      simp only [List.mem_append, List.mem_cons] at h
      rcases h with h | h | h | h
      · exact absurd (mem_envStep h) (by simp)
      · exact absurd h (by simp)
      · exact ⟨c, by simpa using h⟩
      · exact ih _ _ e h
    · rw [Bool.not_eq_true] at hg
      rw [rewriteLoop_cons_neg hg] at h
      simp only [List.mem_append, List.mem_cons, List.not_mem_nil, or_false] at h
      rcases h with h | h | h
      · exact absurd (mem_envStep h) (by simp)
      · exact absurd h (by simp)
      · exact absurd h (by simp)

theorem rewriteLoop_halt (sched : Nat → Bool) (chatId : String) (raises : Bool) :
    ∀ (chunks : List String) (acc : String) (st : St) (d1 d2 : List Action)
      (key : String),
      (rewriteLoop sched chatId raises chunks acc st).delta =
        d1 ++ Action.haltWrite key :: d2 →
      key = chatId ∧ d2 = [Action.poll chatId (some (-1)), Action.sentinel] ∧
      (rewriteLoop sched chatId raises chunks acc st).out = .broke ∧
      (rewriteLoop sched chatId raises chunks acc st).st.cache.get chatId =
        some (-1) := by
  intro chunks
  induction chunks with
  | nil =>
    intro acc st d1 d2 key h
    rw [rewriteLoop_nil] at h
    split at h <;> exact absurd h nil_split
  | cons c rest ih =>
    intro acc st d1 d2 key h
    by_cases hg : pyStrEq ((envStep sched chatId st).1.cache.get chatId) 1 = true
    · rw [rewriteLoop_cons_pos hg] at h ⊢
      rcases append_split h with ⟨e2, he, _⟩ | ⟨e1, _, hb⟩
      · exfalso
        have h2 : (envStep sched chatId st).2 = [Action.haltWrite chatId] := by
          rcases envStep_delta sched chatId st with h2 | h2
          · rw [h2] at he; exact absurd he nil_split
          · exact h2
        rw [envStep_halt_get h2] at hg
        simp [pyStrEq] at hg
      · obtain ⟨e1', _, hb1⟩ := cons_split hb (by simp)
        obtain ⟨e1'', _, hb2⟩ := cons_split hb1 (by simp)
        exact ih _ _ _ _ _ hb2
    · rw [Bool.not_eq_true] at hg
      rw [rewriteLoop_cons_neg hg] at h ⊢
      rcases append_split h with ⟨e2, he, hd⟩ | ⟨e1, _, hb⟩
      · have h2 : (envStep sched chatId st).2 = [Action.haltWrite chatId] := by
          rcases envStep_delta sched chatId st with h2 | h2
          · rw [h2] at he; exact absurd he nil_split
          · exact h2
        have hget := envStep_halt_get h2
        rw [h2] at he
        obtain ⟨hd1, hk, he2⟩ := singleton_split he
        refine ⟨by injection hk.symm, ?_, rfl, hget⟩
        rw [hd, he2, hget]
        rfl
      · exfalso
        obtain ⟨e1', _, hb1⟩ := cons_split hb (by simp)
        obtain ⟨e1'', _, hb2⟩ := cons_split hb1 (by simp)
        exact nil_split hb2

theorem rewriteLoop_poll (sched : Nat → Bool) (chatId : String) (raises : Bool) :
    ∀ (chunks : List String) (acc : String) (st : St) (d1 d2 : List Action)
      (key : String) (r : Option Int),
      (rewriteLoop sched chatId raises chunks acc st).delta =
        d1 ++ Action.poll key r :: d2 →
      pyStrEq r 1 = false → d2 = [Action.sentinel] := by
  intro chunks
  induction chunks with
  | nil =>
    intro acc st d1 d2 key r h _
    rw [rewriteLoop_nil] at h
    split at h <;> exact absurd h nil_split
  | cons c rest ih =>
    intro acc st d1 d2 key r h hr
    by_cases hg : pyStrEq ((envStep sched chatId st).1.cache.get chatId) 1 = true
    · rw [rewriteLoop_cons_pos hg] at h
      rcases append_split h with ⟨e2, he, _⟩ | ⟨e1, _, hb⟩
      · exact absurd (mem_envStep (mem_of_split he)) (by simp)
      · cases e1 with
        | nil =>
          exfalso
          simp only [List.nil_append, List.cons.injEq] at hb
          obtain ⟨hp, _⟩ := hb
          injection hp with hk hv
          rw [hv] at hg
          rw [hg] at hr
          simp at hr
        | cons a e1' =>
          simp only [List.cons_append, List.cons.injEq] at hb
          obtain ⟨e1'', _, hb2⟩ := cons_split hb.2 (by simp)
          exact ih _ _ _ _ _ _ hb2 hr
    · rw [Bool.not_eq_true] at hg
      rw [rewriteLoop_cons_neg hg] at h
      rcases append_split h with ⟨e2, he, _⟩ | ⟨e1, _, hb⟩
      · exact absurd (mem_envStep (mem_of_split he)) (by simp)
      · cases e1 with
        | nil =>
          simp only [List.nil_append, List.cons.injEq] at hb
          exact hb.2.symm
        | cons a e1' =>
          exfalso
          simp only [List.cons_append, List.cons.injEq] at hb
          obtain ⟨e1'', _, hb2⟩ := cons_split hb.2 (by simp)
          exact nil_split hb2

theorem rewriteLoop_emit_after (sched : Nat → Bool) (chatId : String)
    (raises : Bool) :
    ∀ (chunks : List String) (acc : String) (st : St) (d1 d2 : List Action)
      (e : Event),
      (rewriteLoop sched chatId raises chunks acc st).delta =
        d1 ++ Action.emit e :: d2 →
      ∃ d0, d1 = d0 ++ [Action.poll chatId (some 1)] := by
  intro chunks
  induction chunks with
  | nil =>
    intro acc st d1 d2 e h
    rw [rewriteLoop_nil] at h
    split at h <;> exact absurd h nil_split
  | cons c rest ih =>
    intro acc st d1 d2 e h
    by_cases hg : pyStrEq ((envStep sched chatId st).1.cache.get chatId) 1 = true
    · have hone : (envStep sched chatId st).1.cache.get chatId = some 1 :=
        (pyStrEq_one _).mp hg
      rw [rewriteLoop_cons_pos hg] at h
      rcases append_split h with ⟨e2, he, _⟩ | ⟨e1, hd1, hb⟩
      · exact absurd (mem_envStep (mem_of_split he)) (by simp)
      · cases e1 with
        | nil =>
          simp only [List.nil_append, List.cons.injEq] at hb
          exact absurd hb.1 (by simp)
        | cons a e1' =>
          simp only [List.cons_append, List.cons.injEq] at hb
          cases e1' with
          | nil =>
            simp only [List.nil_append, List.cons.injEq] at hb
            refine ⟨(envStep sched chatId st).2, ?_⟩
            rw [hd1, ← hb.1, hone]
          | cons b e1'' =>
            simp only [List.cons_append, List.cons.injEq] at hb
            obtain ⟨d0, hd0⟩ := ih _ _ _ _ _ hb.2.2
            refine ⟨(envStep sched chatId st).2 ++ a :: b :: d0, ?_⟩
            rw [hd1, hd0]
            simp
    · rw [Bool.not_eq_true] at hg
      rw [rewriteLoop_cons_neg hg] at h
      rcases append_split h with ⟨e2, he, _⟩ | ⟨e1, _, hb⟩
      · exact absurd (mem_envStep (mem_of_split he)) (by simp)
      · exfalso
        cases e1 with
        | nil => simp at hb
        | cons a e1' =>
          simp only [List.cons_append, List.cons.injEq] at hb
          obtain ⟨e1'', _, hb2⟩ := cons_split hb.2 (by simp)
          exact nil_split hb2

theorem rewriteLoop_noHalt {sched : Nat → Bool} (hs : ∀ k, sched k = false)
    (chatId : String) (raises : Bool) :
    ∀ (chunks : List String) (acc : String) (st : St),
      st.cache.get chatId = some 1 →
      (rewriteLoop sched chatId raises chunks acc st).st.cache = st.cache := by
  intro chunks
  induction chunks with
  | nil =>
    intro acc st _
    rw [rewriteLoop_nil]
    split <;> rfl
  | cons c rest ih =>
    intro acc st h
    have hes : envStep sched chatId st = (⟨st.cache, st.k + 1⟩, []) :=
      envStep_noHalt hs chatId st
    have hget : (envStep sched chatId st).1.cache.get chatId = some 1 := by
      rw [hes]; exact h
    have hg : pyStrEq ((envStep sched chatId st).1.cache.get chatId) 1 = true := by
      rw [hget]; rfl
    rw [rewriteLoop_cons_pos hg]
    have := ih (acc ++ c) (envStep sched chatId st).1 hget
    rw [this, hes]

theorem answerLoop_mem (sched : Nat → Bool) (chatId : String) (raises : Bool) :
    ∀ (chunks : List String) (st : St) (a : Action),
      a ∈ (answerLoop sched chatId raises chunks st).delta →
      a = Action.haltWrite chatId ∨ (∃ r, a = Action.poll chatId r) ∨
      (∃ s, a = Action.emit (Event.Answer s)) ∨ a = Action.sentinel := by
  intro chunks
  induction chunks with
  | nil =>
    intro st a h
    rw [answerLoop_nil] at h
    split at h <;> simp at h
  | cons c rest ih =>
    intro st a h
    by_cases hg : pyStrEq ((envStep sched chatId st).1.cache.get chatId) 1 = true
    · rw [answerLoop_cons_pos hg] at h
      simp only [List.mem_append, List.mem_cons] at h
      rcases h with h | h | h | h
      · exact Or.inl (mem_envStep h)
      · exact Or.inr (Or.inl ⟨_, h⟩)
      · exact Or.inr (Or.inr (Or.inl ⟨c, h⟩))
      · exact ih _ a h
    · rw [Bool.not_eq_true] at hg
      rw [answerLoop_cons_neg hg] at h
      simp only [List.mem_append, List.mem_cons, List.not_mem_nil, or_false] at h
      rcases h with h | h | h
      · exact Or.inl (mem_envStep h)
      · exact Or.inr (Or.inl ⟨_, h⟩)
      · exact Or.inr (Or.inr (Or.inr h))

theorem rewriteLoop_mem (sched : Nat → Bool) (chatId : String) (raises : Bool) :
    ∀ (chunks : List String) (acc : String) (st : St) (a : Action),
      a ∈ (rewriteLoop sched chatId raises chunks acc st).delta →
      a = Action.haltWrite chatId ∨ (∃ r, a = Action.poll chatId r) ∨
      (∃ s, a = Action.emit (Event.QueryRewrite s)) ∨ a = Action.sentinel := by
  intro chunks
  induction chunks with
  | nil =>
    intro acc st a h
    rw [rewriteLoop_nil] at h
    split at h <;> simp at h
  | cons c rest ih =>
    intro acc st a h
    by_cases hg : pyStrEq ((envStep sched chatId st).1.cache.get chatId) 1 = true
    · rw [rewriteLoop_cons_pos hg] at h
      simp only [List.mem_append, List.mem_cons] at h
      rcases h with h | h | h | h
      · exact Or.inl (mem_envStep h)
      · exact Or.inr (Or.inl ⟨_, h⟩)
      · exact Or.inr (Or.inr (Or.inl ⟨c, h⟩))
      · exact ih _ _ a h
    · rw [Bool.not_eq_true] at hg
      rw [rewriteLoop_cons_neg hg] at h
      simp only [List.mem_append, List.mem_cons, List.not_mem_nil, or_false] at h
      rcases h with h | h | h
      · exact Or.inl (mem_envStep h)
      · exact Or.inr (Or.inl ⟨_, h⟩)
      · exact Or.inr (Or.inr (Or.inr h))

theorem eventsOf_cons_emit (e : Event) (l : List Action) :
    eventsOf (Action.emit e :: l) = e :: eventsOf l :=
  rfl

theorem eventsOf_answerLoop_nosearch (sched : Nat → Bool) (chatId : String)
    (raises : Bool) (chunks : List String) (st : St) :
    (eventsOf (answerLoop sched chatId raises chunks st).delta).filter
      Event.isSearch = [] := by
  rw [List.filter_eq_nil_iff]
  intro e he
  unfold eventsOf at he
  obtain ⟨a, ha, hea⟩ := List.mem_filterMap.mp he
  rcases answerLoop_mem sched chatId raises chunks st a ha with h | ⟨r, h⟩ | ⟨s, h⟩ | h <;>
    rw [h] at hea <;> simp at hea
  rw [← hea]
  simp [Event.isSearch]

theorem eventsOf_rewriteLoop_nosearch (sched : Nat → Bool) (chatId : String)
    (raises : Bool) (chunks : List String) (acc : String) (st : St) :
    (eventsOf (rewriteLoop sched chatId raises chunks acc st).delta).filter
      Event.isSearch = [] := by
  rw [List.filter_eq_nil_iff]
  intro e he
  unfold eventsOf at he
  obtain ⟨a, ha, hea⟩ := List.mem_filterMap.mp he
  rcases rewriteLoop_mem sched chatId raises chunks acc st a ha with
    h | ⟨r, h⟩ | ⟨s, h⟩ | h <;> rw [h] at hea <;> simp at hea
  rw [← hea]
  simp [Event.isSearch]

/-! ### Lemmas about the shared workflow `except` body -/

theorem workflowExcept_get (sched : Nat → Bool) (chatId : String) (st : St) :
    (workflowExcept sched chatId st).1.cache.get chatId = some (-1) :=
  LocalCache.get_set_self ..

theorem workflowExcept_delta (sched : Nat → Bool) (chatId : String) (st : St) :
    (workflowExcept sched chatId st).2 =
      Action.logError :: (envStep sched chatId st).2 ++
        [Action.storeSet chatId (-1), Action.sentinel] := by
  rfl

theorem workflowExcept_noemit (sched : Nat → Bool) (chatId : String) (st : St) :
    ∀ e, Action.emit e ∉ (workflowExcept sched chatId st).2 := by
  intro e h
  rw [workflowExcept_delta] at h
  simp only [List.cons_append, List.mem_cons, List.mem_append, List.mem_cons,
    List.not_mem_nil, or_false] at h
  rcases h with h | h | h | h
  · exact absurd h (by simp)
  · exact absurd (mem_envStep h) (by simp)
  · exact absurd h (by simp)
  · exact absurd h (by simp)

theorem workflowExcept_nopoll (sched : Nat → Bool) (chatId : String) (st : St) :
    ∀ k r, Action.poll k r ∉ (workflowExcept sched chatId st).2 := by
  intro k r h
  rw [workflowExcept_delta] at h
  simp only [List.cons_append, List.mem_cons, List.mem_append, List.mem_cons,
    List.not_mem_nil, or_false] at h
  rcases h with h | h | h | h
  · exact absurd h (by simp)
  · exact absurd (mem_envStep h) (by simp)
  · exact absurd h (by simp)
  · exact absurd h (by simp)

theorem workflowExcept_halt (sched : Nat → Bool) (chatId : String) (st : St)
    (d1 d2 : List Action) (key : String)
    (h : (workflowExcept sched chatId st).2 = d1 ++ Action.haltWrite key :: d2) :
    key = chatId ∧ d2 = [Action.storeSet chatId (-1), Action.sentinel] := by
  rw [workflowExcept_delta] at h
  obtain ⟨e1', _, h2⟩ := cons_split h (by simp)
  rcases append_split h2 with ⟨e2, he, hd⟩ | ⟨f1, _, hb⟩
  · have hes : (envStep sched chatId st).2 = [Action.haltWrite chatId] := by
      rcases envStep_delta sched chatId st with hes | hes
      · rw [hes] at he; exact absurd he nil_split
      · exact hes
    rw [hes] at he
    obtain ⟨_, hk, he2⟩ := singleton_split he
    refine ⟨by injection hk.symm, ?_⟩
    rw [hd, he2]
    rfl
  · exfalso
    obtain ⟨f1', _, hb1⟩ := cons_split hb (by simp)
    obtain ⟨f1'', _, hb2⟩ := cons_split hb1 (by simp)
    exact nil_split hb2

theorem workflowExcept_logError (sched : Nat → Bool) (chatId : String) (st : St) :
    Action.logError ∈ (workflowExcept sched chatId st).2 := by
  rw [workflowExcept_delta]
  exact List.mem_cons_self _ _

theorem workflowExcept_log_decomp (sched : Nat → Bool) (chatId : String) (st : St)
    (d1 d2 : List Action)
    (h : (workflowExcept sched chatId st).2 = d1 ++ Action.logError :: d2) :
    (∀ e, Action.emit e ∉ d2) ∧ Action.storeSet chatId (-1) ∈ d2 := by
  rw [workflowExcept_delta] at h
  cases d1 with
  | nil =>
    rw [List.nil_append] at h
    obtain ⟨-, h2⟩ := List.cons.inj h
    constructor
    · intro e he
      rw [← h2] at he
      simp only [List.append_eq, List.mem_append, List.mem_cons, List.not_mem_nil,
        or_false] at he
      rcases he with he | he | he
      · exact absurd (mem_envStep he) (by simp)
      · exact absurd he (by simp)
      · exact absurd he (by simp)
    · rw [← h2]
      simp
  | cons a d1 =>
    exfalso
    rw [List.cons_append] at h
    obtain ⟨-, h2⟩ := List.cons.inj h
    have := mem_of_split h2
    simp only [List.append_eq, List.mem_append, List.mem_cons, List.not_mem_nil,
      or_false] at this
    rcases this with hm | hm | hm
    · exact absurd (mem_envStep hm) (by simp)
    · exact absurd hm (by simp)
    · exact absurd hm (by simp)

theorem workflowExcept_sets (sched : Nat → Bool) (chatId : String) (st : St) :
    ∀ k v, Action.storeSet k v ∈ (workflowExcept sched chatId st).2 →
      k = chatId ∧ v = -1 := by
  intro k v h
  rw [workflowExcept_delta] at h
  simp only [List.cons_append, List.mem_cons, List.mem_append, List.mem_cons,
    List.not_mem_nil, or_false] at h
  rcases h with h | h | h | h
  · exact absurd h (by simp)
  · exact absurd (mem_envStep h) (by simp)
  · injection h with h1 h2; exact ⟨h1, h2⟩
  · exact absurd h (by simp)

/-! ### Lemmas about the two `chat_workflow` bodies -/

theorem chat_workflow_escaped (svc : Service) (sched : Nat → Bool) (chatId : String)
    (messages : List Message) (st : St) :
    (chat_workflow svc sched chatId messages st).escaped = (chatId == "") := by
  unfold chat_workflow
  cases svc.kind with
  | chat =>
    unfold ChatService_chat_workflow
    by_cases h : (chatId == "") = true
    · simp [h]
    · rw [Bool.not_eq_true] at h
      simp only [h, Bool.false_eq_true, if_false]
      repeat' first | rfl | split
  | rag =>
    unfold RAGService_chat_workflow
    by_cases h : (chatId == "") = true
    · simp [h]
    · rw [Bool.not_eq_true] at h
      simp only [h, Bool.false_eq_true, if_false]
      repeat' first | rfl | split

theorem chatWf_eq_noLLM {svc : Service} (sched : Nat → Bool) {chatId : String}
    (messages : List Message) (st : St)
    (hid : (chatId == "") = false) (hl : svc.llm_client = none) :
    ChatService_chat_workflow svc sched chatId messages st =
      ⟨(workflowExcept sched chatId st).1, (workflowExcept sched chatId st).2,
        false, true, none, none⟩ := by
  unfold ChatService_chat_workflow
  simp only [hid, hl, Bool.false_eq_true, if_false]

theorem chatWf_eq_loop {svc : Service} (sched : Nat → Bool) {chatId : String}
    (messages : List Message) (st : St) (llm : List Message → LLMStream)
    (hid : (chatId == "") = false) (hl : svc.llm_client = some llm)
    (hout : (answerLoop sched chatId (llm messages).raises (llm messages).chunks
        st).out ≠ .raised) :
    ChatService_chat_workflow svc sched chatId messages st =
      ⟨(answerLoop sched chatId (llm messages).raises (llm messages).chunks st).st,
        (answerLoop sched chatId (llm messages).raises (llm messages).chunks st).delta,
        false, false, none, none⟩ := by
  unfold ChatService_chat_workflow
  simp only [hid, hl, Bool.false_eq_true, if_false]

theorem chatWf_eq_raised {svc : Service} (sched : Nat → Bool) {chatId : String}
    (messages : List Message) (st : St) (llm : List Message → LLMStream)
    (hid : (chatId == "") = false) (hl : svc.llm_client = some llm)
    (hout : (answerLoop sched chatId (llm messages).raises (llm messages).chunks
        st).out = .raised) :
    ChatService_chat_workflow svc sched chatId messages st =
      ⟨(workflowExcept sched chatId
          (answerLoop sched chatId (llm messages).raises (llm messages).chunks st).st).1,
        (answerLoop sched chatId (llm messages).raises (llm messages).chunks st).delta ++
          (workflowExcept sched chatId
            (answerLoop sched chatId (llm messages).raises (llm messages).chunks
              st).st).2,
        false, true, none, none⟩ := by
  unfold ChatService_chat_workflow
  simp only [hid, hl, Bool.false_eq_true, if_false]
  rw [hout]

theorem ragWf_eq_noLLM {svc : Service} (sched : Nat → Bool) {chatId : String}
    (messages : List Message) (st : St)
    (hid : (chatId == "") = false) (hl : svc.llm_client = none) :
    RAGService_chat_workflow svc sched chatId messages st =
      ⟨(workflowExcept sched chatId st).1, (workflowExcept sched chatId st).2,
        false, true, none, none⟩ := by
  unfold RAGService_chat_workflow
  simp only [hid, hl, Bool.false_eq_true, if_false]

theorem ragWf_eq_noMsg {svc : Service} (sched : Nat → Bool) {chatId : String}
    {messages : List Message} (st : St) (llm : List Message → LLMStream)
    (hid : (chatId == "") = false) (hl : svc.llm_client = some llm)
    (hm : messages.head? = none) :
    RAGService_chat_workflow svc sched chatId messages st =
      ⟨(workflowExcept sched chatId st).1, (workflowExcept sched chatId st).2,
        false, true, none, none⟩ := by
  unfold RAGService_chat_workflow
  simp only [hid, hl, hm, Bool.false_eq_true, if_false]

theorem ragWf_eq_r1raised {svc : Service} (sched : Nat → Bool) {chatId : String}
    {messages : List Message} (st : St) (llm : List Message → LLMStream)
    (m0 : Message)
    (hid : (chatId == "") = false) (hl : svc.llm_client = some llm)
    (hm : messages.head? = some m0)
    (h1 : (ragR1 sched chatId llm m0.content st).out = .raised) :
    RAGService_chat_workflow svc sched chatId messages st =
      ⟨(workflowExcept sched chatId (ragR1 sched chatId llm m0.content st).st).1,
        (ragR1 sched chatId llm m0.content st).delta ++
          (workflowExcept sched chatId (ragR1 sched chatId llm m0.content st).st).2,
        false, true, none, none⟩ := by
  unfold RAGService_chat_workflow
  simp only [hid, hl, hm, Bool.false_eq_true, if_false]
  rw [h1]

theorem ragWf_eq_searchErr {svc : Service} (sched : Nat → Bool) {chatId : String}
    {messages : List Message} (st : St) (llm : List Message → LLMStream)
    (m0 : Message) (u : Unit)
    (hid : (chatId == "") = false) (hl : svc.llm_client = some llm)
    (hm : messages.head? = some m0)
    (h1 : (ragR1 sched chatId llm m0.content st).out ≠ .raised)
    (hs : svc.search (remove_think (ragR1 sched chatId llm m0.content st).acc) =
      Except.error u) :
    RAGService_chat_workflow svc sched chatId messages st =
      ⟨(workflowExcept sched chatId (ragR1 sched chatId llm m0.content st).st).1,
        (ragR1 sched chatId llm m0.content st).delta ++
          (workflowExcept sched chatId (ragR1 sched chatId llm m0.content st).st).2,
        false, true,
        some (remove_think (ragR1 sched chatId llm m0.content st).acc),
        some (Except.error u)⟩ := by
  unfold RAGService_chat_workflow
  simp only [hid, hl, hm, Bool.false_eq_true, if_false]
  rcases h2 : (ragR1 sched chatId llm m0.content st).out with _ | _ | _
  · simp only [hs]
  · simp only [hs]
  · exact absurd h2 h1

theorem ragWf_eq_r2raised {svc : Service} (sched : Nat → Bool) {chatId : String}
    {messages : List Message} (st : St) (llm : List Message → LLMStream)
    (m0 : Message) (att : Attachment)
    (hid : (chatId == "") = false) (hl : svc.llm_client = some llm)
    (hm : messages.head? = some m0)
    (h1 : (ragR1 sched chatId llm m0.content st).out ≠ .raised)
    (hs : svc.search (remove_think (ragR1 sched chatId llm m0.content st).acc) =
      Except.ok att)
    (h2 : (ragR2 sched chatId llm m0.content
        (remove_think (ragR1 sched chatId llm m0.content st).acc) att
        (ragR1 sched chatId llm m0.content st).st).out = .raised) :
    RAGService_chat_workflow svc sched chatId messages st =
      ⟨(workflowExcept sched chatId
          (ragR2 sched chatId llm m0.content
            (remove_think (ragR1 sched chatId llm m0.content st).acc) att
            (ragR1 sched chatId llm m0.content st).st).st).1,
        (ragR1 sched chatId llm m0.content st).delta ++
          Action.emit (Event.Search att) ::
          ((ragR2 sched chatId llm m0.content
              (remove_think (ragR1 sched chatId llm m0.content st).acc) att
              (ragR1 sched chatId llm m0.content st).st).delta ++
            (workflowExcept sched chatId
              (ragR2 sched chatId llm m0.content
                (remove_think (ragR1 sched chatId llm m0.content st).acc) att
                (ragR1 sched chatId llm m0.content st).st).st).2),
        false, true,
        some (remove_think (ragR1 sched chatId llm m0.content st).acc),
        some (Except.ok att)⟩ := by
  unfold RAGService_chat_workflow
  simp only [hid, hl, hm, Bool.false_eq_true, if_false]
  rcases h3 : (ragR1 sched chatId llm m0.content st).out with _ | _ | _
  · simp only [hs]
    rw [h2]
  · simp only [hs]
    rw [h2]
  · exact absurd h3 h1

theorem ragWf_eq_ok {svc : Service} (sched : Nat → Bool) {chatId : String}
    {messages : List Message} (st : St) (llm : List Message → LLMStream)
    (m0 : Message) (att : Attachment)
    (hid : (chatId == "") = false) (hl : svc.llm_client = some llm)
    (hm : messages.head? = some m0)
    (h1 : (ragR1 sched chatId llm m0.content st).out ≠ .raised)
    (hs : svc.search (remove_think (ragR1 sched chatId llm m0.content st).acc) =
      Except.ok att)
    (h2 : (ragR2 sched chatId llm m0.content
        (remove_think (ragR1 sched chatId llm m0.content st).acc) att
        (ragR1 sched chatId llm m0.content st).st).out ≠ .raised) :
    RAGService_chat_workflow svc sched chatId messages st =
      ⟨(ragR2 sched chatId llm m0.content
          (remove_think (ragR1 sched chatId llm m0.content st).acc) att
          (ragR1 sched chatId llm m0.content st).st).st,
        (ragR1 sched chatId llm m0.content st).delta ++
          Action.emit (Event.Search att) ::
          (ragR2 sched chatId llm m0.content
            (remove_think (ragR1 sched chatId llm m0.content st).acc) att
            (ragR1 sched chatId llm m0.content st).st).delta,
        false, false,
        some (remove_think (ragR1 sched chatId llm m0.content st).acc),
        some (Except.ok att)⟩ := by
  unfold RAGService_chat_workflow
  simp only [hid, hl, hm, Bool.false_eq_true, if_false]
  rcases h3 : (ragR1 sched chatId llm m0.content st).out with _ | _ | _
  · simp only [hs]
  · simp only [hs]
  · exact absurd h3 h1

/-! ### `WfProps` for each workflow result shape -/

theorem wfProps_except (sched : Nat → Bool) (chatId : String) (entrySt st0 : St)
    (rqv : Option String) (srv : Option (Except Unit Attachment))
    (hsr : ∀ att, srv ≠ some (Except.ok att)) :
    WfProps sched chatId entrySt
      ⟨(workflowExcept sched chatId st0).1, (workflowExcept sched chatId st0).2,
        false, true, rqv, srv⟩ := by
  refine ⟨?_, ?_, ?_, ?_, ?_, ?_, ?_⟩
  · intro e he
    exact absurd he (workflowExcept_noemit sched chatId st0 e)
  · intro d1 d2 key h
    obtain ⟨hk, hd⟩ := workflowExcept_halt sched chatId st0 d1 d2 key h
    refine ⟨hk, ?_, workflowExcept_get ..⟩
    intro a ha
    rw [hd] at ha
    simp only [List.mem_cons, List.not_mem_nil, or_false] at ha
    rcases ha with ha | ha <;> subst ha <;> rfl
  · intro _
    exact workflowExcept_logError ..
  · intro d1 d2 h
    exact workflowExcept_log_decomp sched chatId st0 d1 d2 h
  · exact workflowExcept_sets sched chatId st0
  · intro _ _ hc
    exact absurd hc (by simp)
  · intro att h
    exact absurd h (hsr att)

theorem wfProps_loopOnly (sched : Nat → Bool) (chatId : String) (raises : Bool)
    (chunks : List String) (st0 : St) :
    WfProps sched chatId st0
      ⟨(answerLoop sched chatId raises chunks st0).st,
        (answerLoop sched chatId raises chunks st0).delta,
        false, false, none, none⟩ := by
  refine ⟨?_, ?_, ?_, ?_, ?_, ?_, ?_⟩
  · intro e he
    obtain ⟨s, hs⟩ := answerLoop_emits sched chatId raises chunks st0 e he
    rw [hs]
    rfl
  · intro d1 d2 key h
    obtain ⟨hk, hd, _, hget⟩ := answerLoop_halt sched chatId raises chunks st0 d1 d2 key h
    refine ⟨hk, ?_, hget⟩
    intro a ha
    rw [hd] at ha
    simp only [List.mem_cons, List.not_mem_nil, or_false] at ha
    rcases ha with ha | ha <;> subst ha <;> rfl
  · intro hc
    exact absurd hc (by simp)
  · intro d1 d2 h
    exfalso
    have := mem_of_split h
    rcases answerLoop_mem sched chatId raises chunks st0 _ this with
      hm | ⟨r, hm⟩ | ⟨s, hm⟩ | hm <;> simp at hm
  · intro k v h
    exfalso
    rcases answerLoop_mem sched chatId raises chunks st0 _ h with
      hm | ⟨r, hm⟩ | ⟨s, hm⟩ | hm <;> simp at hm
  · intro hs hget _
    exact answerLoop_noHalt hs chatId raises chunks st0 hget
  · intro att h
    exact absurd h (by simp)

theorem wfProps_answerExcept (sched : Nat → Bool) (chatId : String)
    (entrySt : St) (raises : Bool) (chunks : List String) (st0 : St)
    (rqv : Option String) (srv : Option (Except Unit Attachment))
    (hsr : ∀ att, srv ≠ some (Except.ok att)) :
    WfProps sched chatId entrySt
      ⟨(workflowExcept sched chatId (answerLoop sched chatId raises chunks st0).st).1,
        (answerLoop sched chatId raises chunks st0).delta ++
          (workflowExcept sched chatId
            (answerLoop sched chatId raises chunks st0).st).2,
        false, true, rqv, srv⟩ := by
  refine ⟨?_, ?_, ?_, ?_, ?_, ?_, ?_⟩
  · intro e he
    rcases List.mem_append.mp he with he | he
    · obtain ⟨s, hs⟩ := answerLoop_emits sched chatId raises chunks st0 e he
      rw [hs]
      rfl
    · exact absurd he (workflowExcept_noemit sched chatId _ e)
  · intro d1 d2 key h
    rcases append_split h with ⟨e2, he, hd⟩ | ⟨e1, _, hb⟩
    · obtain ⟨hk, hd2, _, hget⟩ :=
        answerLoop_halt sched chatId raises chunks st0 d1 e2 key he
      refine ⟨hk, ?_, workflowExcept_get ..⟩
      intro a ha
      rw [hd, hd2] at ha
      rcases List.mem_append.mp ha with ha | ha
      · simp only [List.mem_cons, List.not_mem_nil, or_false] at ha
        rcases ha with ha | ha <;> subst ha <;> rfl
      · rcases envStep_delta sched chatId
            (answerLoop sched chatId raises chunks st0).st with hv | hv
        all_goals {
          rw [workflowExcept_delta] at ha
          simp only [hv, List.cons_append, List.nil_append, List.mem_cons,
            List.not_mem_nil, or_false] at ha
          first
          | (rcases ha with ha | ha | ha <;> subst ha <;> rfl)
          | (rcases ha with ha | ha | ha | ha <;> subst ha <;> rfl) }
    · obtain ⟨hk, hd2⟩ := workflowExcept_halt sched chatId
        (answerLoop sched chatId raises chunks st0).st e1 d2 key hb
      refine ⟨hk, ?_, workflowExcept_get ..⟩
      intro a ha
      rw [hd2] at ha
      simp only [List.mem_cons, List.not_mem_nil, or_false] at ha
      rcases ha with ha | ha <;> subst ha <;> rfl
  · intro _
    exact List.mem_append_right _ (workflowExcept_logError ..)
  · intro d1 d2 h
    rcases append_split h with ⟨e2, he, hd⟩ | ⟨e1, _, hb⟩
    · exfalso
      have := mem_of_split he
      rcases answerLoop_mem sched chatId raises chunks st0 _ this with
        hm | ⟨r, hm⟩ | ⟨s, hm⟩ | hm <;> simp at hm
    · exact workflowExcept_log_decomp sched chatId _ e1 d2 hb
  · intro k v h
    rcases List.mem_append.mp h with h | h
    · exfalso
      rcases answerLoop_mem sched chatId raises chunks st0 _ h with
        hm | ⟨r, hm⟩ | ⟨s, hm⟩ | hm <;> simp at hm
    · exact workflowExcept_sets sched chatId _ k v h
  · intro _ _ hc
    exact absurd hc (by simp)
  · intro att h
    exact absurd h (hsr att)

theorem eventsOf_workflowExcept (sched : Nat → Bool) (chatId : String) (st : St) :
    eventsOf (workflowExcept sched chatId st).2 = [] := by
  rcases envStep_delta sched chatId st with hv | hv <;>
    rw [workflowExcept_delta, hv] <;> rfl

theorem wfProps_rewriteExcept (sched : Nat → Bool) (chatId : String)
    (entrySt : St) (raises : Bool) (chunks : List String) (acc : String) (st0 : St)
    (rqv : Option String) (srv : Option (Except Unit Attachment))
    (hsr : ∀ att, srv ≠ some (Except.ok att)) :
    WfProps sched chatId entrySt
      ⟨(workflowExcept sched chatId
          (rewriteLoop sched chatId raises chunks acc st0).st).1,
        (rewriteLoop sched chatId raises chunks acc st0).delta ++
          (workflowExcept sched chatId
            (rewriteLoop sched chatId raises chunks acc st0).st).2,
        false, true, rqv, srv⟩ := by
  refine ⟨?_, ?_, ?_, ?_, ?_, ?_, ?_⟩
  · intro e he
    rcases List.mem_append.mp he with he | he
    · obtain ⟨s, hs⟩ := rewriteLoop_emits sched chatId raises chunks acc st0 e he
      rw [hs]
      rfl
    · exact absurd he (workflowExcept_noemit sched chatId _ e)
  · intro d1 d2 key h
    rcases append_split h with ⟨e2, he, hd⟩ | ⟨e1, _, hb⟩
    · obtain ⟨hk, hd2, _, hget⟩ :=
        rewriteLoop_halt sched chatId raises chunks acc st0 d1 e2 key he
      refine ⟨hk, ?_, workflowExcept_get ..⟩
      intro a ha
      rw [hd, hd2] at ha
      rcases List.mem_append.mp ha with ha | ha
      · simp only [List.mem_cons, List.not_mem_nil, or_false] at ha
        rcases ha with ha | ha <;> subst ha <;> rfl
      · rcases envStep_delta sched chatId
            (rewriteLoop sched chatId raises chunks acc st0).st with hv | hv
        all_goals {
          rw [workflowExcept_delta] at ha
          simp only [hv, List.cons_append, List.nil_append, List.mem_cons,
            List.not_mem_nil, or_false] at ha
          first
          | (rcases ha with ha | ha | ha <;> subst ha <;> rfl)
          | (rcases ha with ha | ha | ha | ha <;> subst ha <;> rfl) }
    · obtain ⟨hk, hd2⟩ := workflowExcept_halt sched chatId
        (rewriteLoop sched chatId raises chunks acc st0).st e1 d2 key hb
      refine ⟨hk, ?_, workflowExcept_get ..⟩
      intro a ha
      rw [hd2] at ha
      simp only [List.mem_cons, List.not_mem_nil, or_false] at ha
      rcases ha with ha | ha <;> subst ha <;> rfl
  · intro _
    exact List.mem_append_right _ (workflowExcept_logError ..)
  · intro d1 d2 h
    rcases append_split h with ⟨e2, he, hd⟩ | ⟨e1, _, hb⟩
    · exfalso
      have := mem_of_split he
      rcases rewriteLoop_mem sched chatId raises chunks acc st0 _ this with
        hm | ⟨r, hm⟩ | ⟨s, hm⟩ | hm <;> simp at hm
    · exact workflowExcept_log_decomp sched chatId _ e1 d2 hb
  · intro k v h
    rcases List.mem_append.mp h with h | h
    · exfalso
      rcases rewriteLoop_mem sched chatId raises chunks acc st0 _ h with
        hm | ⟨r, hm⟩ | ⟨s, hm⟩ | hm <;> simp at hm
    · exact workflowExcept_sets sched chatId _ k v h
  · intro _ _ hc
    exact absurd hc (by simp)
  · intro att h
    exact absurd h (hsr att)

theorem wfProps_ragOk (sched : Nat → Bool) (chatId : String) (raises1 : Bool)
    (chunks1 : List String) (st0 : St) (att : Attachment) (raises2 : Bool)
    (chunks2 : List String) (rqv : Option String) :
    WfProps sched chatId st0
      ⟨(answerLoop sched chatId raises2 chunks2
          (rewriteLoop sched chatId raises1 chunks1 "" st0).st).st,
        (rewriteLoop sched chatId raises1 chunks1 "" st0).delta ++
          Action.emit (Event.Search att) ::
          (answerLoop sched chatId raises2 chunks2
            (rewriteLoop sched chatId raises1 chunks1 "" st0).st).delta,
        false, false, rqv, some (Except.ok att)⟩ := by
  refine ⟨?_, ?_, ?_, ?_, ?_, ?_, ?_⟩
  · intro e he
    rcases List.mem_append.mp he with he | he
    · obtain ⟨s, hs⟩ := rewriteLoop_emits sched chatId raises1 chunks1 "" st0 e he
      rw [hs]
      rfl
    · rcases List.mem_cons.mp he with he | he
      · injection he with he
        rw [he]
        rfl
      · obtain ⟨s, hs⟩ := answerLoop_emits sched chatId raises2 chunks2 _ e he
        rw [hs]
        rfl
  · intro d1 d2 key h
    rcases append_split h with ⟨e2, he, hd⟩ | ⟨e1, _, hb⟩
    · obtain ⟨hk, hd2, _, hget1⟩ :=
        rewriteLoop_halt sched chatId raises1 chunks1 "" st0 d1 e2 key he
      obtain ⟨hnoemit, hget2⟩ :=
        answerLoop_term sched chatId raises2 chunks2 _ hget1
      refine ⟨hk, ?_, hget2⟩
      intro a ha
      rw [hd, hd2] at ha
      rcases List.mem_append.mp ha with ha | ha
      · simp only [List.mem_cons, List.not_mem_nil, or_false] at ha
        rcases ha with ha | ha <;> subst ha <;> rfl
      · rcases List.mem_cons.mp ha with ha | ha
        · subst ha; rfl
        · rcases answerLoop_mem sched chatId raises2 chunks2 _ a ha with
            hm | ⟨r, hm⟩ | ⟨s, hm⟩ | hm
          · subst hm; rfl
          · subst hm; rfl
          · exact absurd (hm ▸ ha) (hnoemit (Event.Answer s))
          · subst hm; rfl
    · obtain ⟨e1', _, hb1⟩ := cons_split hb (by simp)
      obtain ⟨hk, hd2, _, hget⟩ :=
        answerLoop_halt sched chatId raises2 chunks2 _ e1' d2 key hb1
      refine ⟨hk, ?_, hget⟩
      intro a ha
      rw [hd2] at ha
      simp only [List.mem_cons, List.not_mem_nil, or_false] at ha
      rcases ha with ha | ha <;> subst ha <;> rfl
  · intro hc
    exact absurd hc (by simp)
  · intro d1 d2 h
    exfalso
    rcases append_split h with ⟨e2, he, _⟩ | ⟨e1, _, hb⟩
    · have := mem_of_split he
      rcases rewriteLoop_mem sched chatId raises1 chunks1 "" st0 _ this with
        hm | ⟨r, hm⟩ | ⟨s, hm⟩ | hm <;> simp at hm
    · obtain ⟨e1', _, hb1⟩ := cons_split hb (by simp)
      have := mem_of_split hb1
      rcases answerLoop_mem sched chatId raises2 chunks2 _ _ this with
        hm | ⟨r, hm⟩ | ⟨s, hm⟩ | hm <;> simp at hm
  · intro k v h
    exfalso
    rcases List.mem_append.mp h with h | h
    · rcases rewriteLoop_mem sched chatId raises1 chunks1 "" st0 _ h with
        hm | ⟨r, hm⟩ | ⟨s, hm⟩ | hm <;> simp at hm
    · rcases List.mem_cons.mp h with h | h
      · simp at h
      · rcases answerLoop_mem sched chatId raises2 chunks2 _ _ h with
          hm | ⟨r, hm⟩ | ⟨s, hm⟩ | hm <;> simp at hm
  · intro hs hget _
    have h1 := rewriteLoop_noHalt hs chatId raises1 chunks1 "" st0 hget
    have hget1 : (rewriteLoop sched chatId raises1 chunks1 "" st0).st.cache.get
        chatId = some 1 := by rw [h1]; exact hget
    have h2 := answerLoop_noHalt hs chatId raises2 chunks2 _ hget1
    rw [h2, h1]
  · intro att0 h
    have hatt : att = att0 := by
      simpa using h
    subst hatt
    rw [eventsOf_append, eventsOf_cons_emit, List.filter_append,
      eventsOf_rewriteLoop_nosearch, List.nil_append, List.filter_cons]
    simp only [Event.isSearch, if_true]
    rw [eventsOf_answerLoop_nosearch]

theorem wfProps_ragOkRaised (sched : Nat → Bool) (chatId : String) (raises1 : Bool)
    (chunks1 : List String) (st0 : St) (att : Attachment) (raises2 : Bool)
    (chunks2 : List String) (rqv : Option String) :
    WfProps sched chatId st0
      ⟨(workflowExcept sched chatId
          (answerLoop sched chatId raises2 chunks2
            (rewriteLoop sched chatId raises1 chunks1 "" st0).st).st).1,
        (rewriteLoop sched chatId raises1 chunks1 "" st0).delta ++
          Action.emit (Event.Search att) ::
          ((answerLoop sched chatId raises2 chunks2
              (rewriteLoop sched chatId raises1 chunks1 "" st0).st).delta ++
            (workflowExcept sched chatId
              (answerLoop sched chatId raises2 chunks2
                (rewriteLoop sched chatId raises1 chunks1 "" st0).st).st).2),
        false, true, rqv, some (Except.ok att)⟩ := by
  refine ⟨?_, ?_, ?_, ?_, ?_, ?_, ?_⟩
  · intro e he
    rcases List.mem_append.mp he with he | he
    · obtain ⟨s, hs⟩ := rewriteLoop_emits sched chatId raises1 chunks1 "" st0 e he
      rw [hs]
      rfl
    · rcases List.mem_cons.mp he with he | he
      · injection he with he
        rw [he]
        rfl
      · rcases List.mem_append.mp he with he | he
        · obtain ⟨s, hs⟩ := answerLoop_emits sched chatId raises2 chunks2 _ e he
          rw [hs]
          rfl
        · exact absurd he (workflowExcept_noemit sched chatId _ e)
  · intro d1 d2 key h
    rcases append_split h with ⟨e2, he, hd⟩ | ⟨e1, _, hb⟩
    · obtain ⟨hk, hd2, _, hget1⟩ :=
        rewriteLoop_halt sched chatId raises1 chunks1 "" st0 d1 e2 key he
      obtain ⟨hnoemit, hget2⟩ :=
        answerLoop_term sched chatId raises2 chunks2 _ hget1
      refine ⟨hk, ?_, workflowExcept_get ..⟩
      intro a ha
      rw [hd, hd2] at ha
      rcases List.mem_append.mp ha with ha | ha
      · simp only [List.mem_cons, List.not_mem_nil, or_false] at ha
        rcases ha with ha | ha <;> subst ha <;> rfl
      · rcases List.mem_cons.mp ha with ha | ha
        · subst ha; rfl
        · rcases List.mem_append.mp ha with ha | ha
          · rcases answerLoop_mem sched chatId raises2 chunks2 _ a ha with
              hm | ⟨r, hm⟩ | ⟨s, hm⟩ | hm
            · subst hm; rfl
            · subst hm; rfl
            · exact absurd (hm ▸ ha) (hnoemit (Event.Answer s))
            · subst hm; rfl
          · rcases envStep_delta sched chatId
                (answerLoop sched chatId raises2 chunks2
                  (rewriteLoop sched chatId raises1 chunks1 "" st0).st).st with hv | hv
            all_goals {
              rw [workflowExcept_delta] at ha
              simp only [hv, List.cons_append, List.nil_append, List.mem_cons,
                List.not_mem_nil, or_false] at ha
              first
              | (rcases ha with ha | ha | ha <;> subst ha <;> rfl)
              | (rcases ha with ha | ha | ha | ha <;> subst ha <;> rfl) }
    · obtain ⟨e1', _, hb1⟩ := cons_split hb (by simp)
      rcases append_split hb1 with ⟨f2, hf, hd⟩ | ⟨f1, _, hb2⟩
      · obtain ⟨hk, hd2, _, hget⟩ :=
          answerLoop_halt sched chatId raises2 chunks2 _ e1' f2 key hf
        refine ⟨hk, ?_, workflowExcept_get ..⟩
        intro a ha
        rw [hd, hd2] at ha
        rcases List.mem_append.mp ha with ha | ha
        · simp only [List.mem_cons, List.not_mem_nil, or_false] at ha
          rcases ha with ha | ha <;> subst ha <;> rfl
        · rcases envStep_delta sched chatId
              (answerLoop sched chatId raises2 chunks2
                (rewriteLoop sched chatId raises1 chunks1 "" st0).st).st with hv | hv
          all_goals {
            rw [workflowExcept_delta] at ha
            simp only [hv, List.cons_append, List.nil_append, List.mem_cons,
              List.not_mem_nil, or_false] at ha
            first
            | (rcases ha with ha | ha | ha <;> subst ha <;> rfl)
            | (rcases ha with ha | ha | ha | ha <;> subst ha <;> rfl) }
      · obtain ⟨hk, hd2⟩ := workflowExcept_halt sched chatId
          (answerLoop sched chatId raises2 chunks2
            (rewriteLoop sched chatId raises1 chunks1 "" st0).st).st f1 d2 key hb2
        refine ⟨hk, ?_, workflowExcept_get ..⟩
        intro a ha
        rw [hd2] at ha
        simp only [List.mem_cons, List.not_mem_nil, or_false] at ha
        rcases ha with ha | ha <;> subst ha <;> rfl
  · intro _
    refine List.mem_append_right _ (List.mem_cons_of_mem _ ?_)
    exact List.mem_append_right _ (workflowExcept_logError ..)
  · intro d1 d2 h
    rcases append_split h with ⟨e2, he, _⟩ | ⟨e1, _, hb⟩
    · exfalso
      have := mem_of_split he
      rcases rewriteLoop_mem sched chatId raises1 chunks1 "" st0 _ this with
        hm | ⟨r, hm⟩ | ⟨s, hm⟩ | hm <;> simp at hm
    · obtain ⟨e1', _, hb1⟩ := cons_split hb (by simp)
      rcases append_split hb1 with ⟨f2, hf, _⟩ | ⟨f1, _, hb2⟩
      · exfalso
        have := mem_of_split hf
        rcases answerLoop_mem sched chatId raises2 chunks2 _ _ this with
          hm | ⟨r, hm⟩ | ⟨s, hm⟩ | hm <;> simp at hm
      · exact workflowExcept_log_decomp sched chatId _ f1 d2 hb2
  · intro k v h
    rcases List.mem_append.mp h with h | h
    · exfalso
      rcases rewriteLoop_mem sched chatId raises1 chunks1 "" st0 _ h with
        hm | ⟨r, hm⟩ | ⟨s, hm⟩ | hm <;> simp at hm
    · rcases List.mem_cons.mp h with h | h
      · exact absurd h (by simp)
      · rcases List.mem_append.mp h with h | h
        · exfalso
          rcases answerLoop_mem sched chatId raises2 chunks2 _ _ h with
            hm | ⟨r, hm⟩ | ⟨s, hm⟩ | hm <;> simp at hm
        · exact workflowExcept_sets sched chatId _ k v h
  · intro _ _ hc
    exact absurd hc (by simp)
  · intro att0 h
    have hatt : att = att0 := by
      simpa using h
    subst hatt
    rw [eventsOf_append, eventsOf_cons_emit, List.filter_append,
      eventsOf_rewriteLoop_nosearch, List.nil_append, List.filter_cons]
    simp only [Event.isSearch, if_true]
    rw [eventsOf_append, List.filter_append, eventsOf_answerLoop_nosearch,
      eventsOf_workflowExcept]
    rfl

/-! ### Lemmas about the tail of `generate` -/

theorem exceptPart_false (sched : Nat → Bool) (chatId : String) (st : St) :
    exceptPart sched chatId false st = (st, []) := by
  rfl

theorem exceptPart_true_get (sched : Nat → Bool) (chatId : String) (st : St) :
    (exceptPart sched chatId true st).1.cache.get chatId = some (-1) :=
  LocalCache.get_set_self ..

theorem exceptPart_delta_true (sched : Nat → Bool) (chatId : String) (st : St) :
    (exceptPart sched chatId true st).2 =
      Action.logError :: (envStep sched chatId st).2 ++
        [Action.storeSet chatId (-1)] := by
  rfl

theorem exceptPart_mem (sched : Nat → Bool) (chatId : String) (escaped : Bool)
    (st : St) :
    ∀ a ∈ (exceptPart sched chatId escaped st).2,
      a = Action.logError ∨ a = Action.haltWrite chatId ∨
      a = Action.storeSet chatId (-1) := by
  intro a ha
  cases escaped with
  | false =>
    rw [exceptPart_false] at ha
    simp at ha
  | true =>
    rw [exceptPart_delta_true] at ha
    rcases envStep_delta sched chatId st with hv | hv <;> rw [hv] at ha <;>
      simp only [List.nil_append, List.cons_append, List.mem_cons,
        List.not_mem_nil, or_false] at ha
    · rcases ha with ha | ha
      · exact Or.inl ha
      · exact Or.inr (Or.inr ha)
    · rcases ha with ha | ha | ha
      · exact Or.inl ha
      · exact Or.inr (Or.inl ha)
      · exact Or.inr (Or.inr ha)

theorem exceptPart_log (sched : Nat → Bool) (chatId : String) (st : St) :
    Action.logError ∈ (exceptPart sched chatId true st).2 := by
  unfold exceptPart
  simp

theorem exceptPart_log_decomp (sched : Nat → Bool) (chatId : String)
    (escaped : Bool) (st : St) (d1 d2 : List Action)
    (h : (exceptPart sched chatId escaped st).2 = d1 ++ Action.logError :: d2) :
    (∀ e, Action.emit e ∉ d2) ∧ Action.storeSet chatId (-1) ∈ d2 := by
  unfold exceptPart at h
  cases escaped with
  | false =>
    simp only [Bool.false_eq_true, if_false] at h
    exact absurd h nil_split
  | true =>
    simp only [if_true] at h
    cases d1 with
    | nil =>
      rw [List.nil_append] at h
      obtain ⟨-, h2⟩ := List.cons.inj h
      constructor
      · intro e he
        rw [← h2] at he
        simp only [List.append_eq, List.mem_append, List.mem_cons,
          List.not_mem_nil, or_false] at he
        rcases he with he | he
        · exact absurd (mem_envStep he) (by simp)
        · exact absurd he (by simp)
      · rw [← h2]
        simp
    | cons a d1 =>
      exfalso
      rw [List.cons_append] at h
      obtain ⟨-, h2⟩ := List.cons.inj h
      have := mem_of_split h2
      simp only [List.append_eq, List.mem_append, List.mem_cons,
        List.not_mem_nil, or_false] at this
      rcases this with hm | hm
      · exact absurd (mem_envStep hm) (by simp)
      · exact absurd hm (by simp)

theorem finallyPart_st (sched : Nat → Bool) (chatId : String) (st : St) :
    (finallyPart sched chatId st).1.cache.get chatId = some 0 ∨
    (finallyPart sched chatId st).1.cache.get chatId = some (-1) := by
  unfold finallyPart
  by_cases hc : pyStrEq ((envStep sched chatId st).1.cache.get chatId) (-1) = true
  · simp only [hc, if_true]
    exact Or.inr ((pyStrEq_term _).mp hc)
  · rw [Bool.not_eq_true] at hc
    simp only [hc, Bool.false_eq_true, if_false]
    exact Or.inl (LocalCache.get_set_self ..)

theorem finallyPart_mem (sched : Nat → Bool) (chatId : String) (st : St) :
    ∀ a ∈ (finallyPart sched chatId st).2.1,
      a = Action.haltWrite chatId ∨ (∃ r, a = Action.storeGet chatId r) ∨
      a = Action.storeSet chatId 0 := by
  intro a ha
  unfold finallyPart at ha
  by_cases hc : pyStrEq ((envStep sched chatId st).1.cache.get chatId) (-1) = true
  · simp only [hc, if_true] at ha
    rcases envStep_delta sched chatId st with hv | hv <;> rw [hv] at ha <;>
      simp only [List.nil_append, List.cons_append, List.mem_cons,
        List.not_mem_nil, or_false] at ha
    · exact Or.inr (Or.inl ⟨_, ha⟩)
    · rcases ha with ha | ha
      · exact Or.inl ha
      · exact Or.inr (Or.inl ⟨_, ha⟩)
  · rw [Bool.not_eq_true] at hc
    simp only [hc, Bool.false_eq_true, if_false] at ha
    rcases envStep_delta sched chatId st with hv | hv <;> rw [hv] at ha <;>
      rcases envStep_delta sched chatId (envStep sched chatId st).1 with hv2 | hv2 <;>
        rw [hv2] at ha <;>
      simp only [List.nil_append, List.cons_append, List.mem_cons,
        List.not_mem_nil, or_false] at ha
    · rcases ha with ha | ha
      · exact Or.inr (Or.inl ⟨_, ha⟩)
      · exact Or.inr (Or.inr ha)
    · rcases ha with ha | ha | ha
      · exact Or.inr (Or.inl ⟨_, ha⟩)
      · exact Or.inl ha
      · exact Or.inr (Or.inr ha)
    · rcases ha with ha | ha | ha
      · exact Or.inl ha
      · exact Or.inr (Or.inl ⟨_, ha⟩)
      · exact Or.inr (Or.inr ha)
    · rcases ha with ha | ha | ha | ha
      · exact Or.inl ha
      · exact Or.inr (Or.inl ⟨_, ha⟩)
      · exact Or.inl ha
      · exact Or.inr (Or.inr ha)

theorem finallyPart_term (sched : Nat → Bool) (chatId : String) (st : St)
    (h : st.cache.get chatId = some (-1)) :
    (finallyPart sched chatId st).2.2 = some (-1) ∧
    (finallyPart sched chatId st).1.cache.get chatId = some (-1) := by
  have hes : (envStep sched chatId st).1.cache.get chatId = some (-1) :=
    envStep_get_term h
  have hc : pyStrEq ((envStep sched chatId st).1.cache.get chatId) (-1) = true :=
    (pyStrEq_term _).mpr hes
  unfold finallyPart
  simp only [hc, if_true]
  exact ⟨hes, hes⟩

theorem finallyPart_finTerm (sched : Nat → Bool) (chatId : String) (st : St)
    (h : (finallyPart sched chatId st).2.2 = some (-1)) :
    (∀ k v, Action.storeSet k v ∉ (finallyPart sched chatId st).2.1) ∧
    (finallyPart sched chatId st).1.cache.get chatId = some (-1) := by
  by_cases hc : pyStrEq ((envStep sched chatId st).1.cache.get chatId) (-1) = true
  · unfold finallyPart
    simp only [hc, if_true]
    refine ⟨?_, (pyStrEq_term _).mp hc⟩
    intro k v hm
    simp only [List.mem_append, List.mem_cons, List.not_mem_nil, or_false] at hm
    rcases hm with hm | hm
    · exact absurd (mem_envStep hm) (by simp)
    · exact absurd hm (by simp)
  · exfalso
    unfold finallyPart at h
    rw [Bool.not_eq_true] at hc
    simp only [hc, Bool.false_eq_true, if_false] at h
    rw [h] at hc
    simp [pyStrEq] at hc

theorem finallyPart_noHalt {sched : Nat → Bool} (hs : ∀ k, sched k = false)
    (chatId : String) (st : St) (h : st.cache.get chatId = some 1) :
    (finallyPart sched chatId st).2.2 = some 1 ∧
    (finallyPart sched chatId st).1.cache.get chatId = some 0 ∧
    Action.storeSet chatId 0 ∈ (finallyPart sched chatId st).2.1 := by
  have hes : envStep sched chatId st = (⟨st.cache, st.k + 1⟩, []) :=
    envStep_noHalt hs chatId st
  have hget : (envStep sched chatId st).1.cache.get chatId = some 1 := by
    rw [hes]; exact h
  have hc : pyStrEq ((envStep sched chatId st).1.cache.get chatId) (-1) = false := by
    rw [hget]; rfl
  unfold finallyPart
  simp only [hc, Bool.false_eq_true, if_false]
  refine ⟨hget, LocalCache.get_set_self .., by simp⟩

theorem eventsOf_envStep (sched : Nat → Bool) (chatId : String) (st : St) :
    eventsOf (envStep sched chatId st).2 = [] := by
  rcases envStep_delta sched chatId st with hv | hv <;> rw [hv] <;> rfl

theorem endPart_en (sched : Nat → Bool) (chatId : String) (t1 : Nat) (st : St) :
    (endPart sched chatId t1 st).2.2 =
      (envStep sched chatId st).1.cache.get chatId := by
  rfl

theorem endPart_delta (sched : Nat → Bool) (chatId : String) (t1 : Nat) (st : St) :
    (endPart sched chatId t1 st).2.1 =
      (envStep sched chatId st).2 ++
        Action.storeGet chatId ((envStep sched chatId st).1.cache.get chatId) ::
        (match (envStep sched chatId st).1.cache.get chatId with
         | some r => [Action.emit (Event.End t1 r)]
         | none => []) := by
  rfl

theorem endPart_some (sched : Nat → Bool) (chatId : String) (t1 : Nat) (st : St)
    (v : Int) (h : st.cache.get chatId = some v) :
    ∃ r, (endPart sched chatId t1 st).2.2 = some r ∧
      eventsOf (endPart sched chatId t1 st).2.1 = [Event.End t1 r] ∧
      (v = -1 → r = -1) := by
  rcases envStep_get sched chatId st with hg | hg
  · rw [h] at hg
    refine ⟨v, ?_, ?_, fun hv1 => hv1⟩
    · rw [endPart_en, hg]
    · rw [endPart_delta, hg, eventsOf_append, eventsOf_envStep]
      rfl
  · refine ⟨-1, ?_, ?_, fun _ => rfl⟩
    · rw [endPart_en, hg]
    · rw [endPart_delta, hg, eventsOf_append, eventsOf_envStep]
      rfl

theorem endPart_noHalt {sched : Nat → Bool} (hs : ∀ k, sched k = false)
    (chatId : String) (t1 : Nat) (st : St) (v : Int)
    (h : st.cache.get chatId = some v) :
    (endPart sched chatId t1 st).2.2 = some v ∧
    eventsOf (endPart sched chatId t1 st).2.1 = [Event.End t1 v] := by
  have hes : envStep sched chatId st = (⟨st.cache, st.k + 1⟩, []) :=
    envStep_noHalt hs chatId st
  have hg : (envStep sched chatId st).1.cache.get chatId = some v := by
    rw [hes]; exact h
  constructor
  · rw [endPart_en, hg]
  · rw [endPart_delta, hg, eventsOf_append, eventsOf_envStep]
    rfl

theorem endPart_mem (sched : Nat → Bool) (chatId : String) (t1 : Nat) (st : St) :
    ∀ a ∈ (endPart sched chatId t1 st).2.1,
      a = Action.haltWrite chatId ∨ (∃ r, a = Action.storeGet chatId r) ∨
      ∃ r, a = Action.emit (Event.End t1 r) := by
  intro a ha
  unfold endPart at ha
  simp only [List.mem_append, List.mem_cons] at ha
  rcases ha with ha | ha | ha
  · exact Or.inl (mem_envStep ha)
  · exact Or.inr (Or.inl ⟨_, ha⟩)
  · rcases hv : (envStep sched chatId st).1.cache.get chatId with _ | r <;>
      rw [hv] at ha <;> simp at ha
    exact Or.inr (Or.inr ⟨r, ha⟩)

theorem eventsOf_exceptPart (sched : Nat → Bool) (chatId : String)
    (escaped : Bool) (st : St) :
    eventsOf (exceptPart sched chatId escaped st).2 = [] := by
  cases escaped with
  | false => rw [exceptPart_false]; rfl
  | true =>
    rw [exceptPart_delta_true]
    rcases envStep_delta sched chatId st with hv | hv <;> rw [hv] <;> rfl

theorem eventsOf_finallyPart (sched : Nat → Bool) (chatId : String) (st : St) :
    eventsOf (finallyPart sched chatId st).2.1 = [] := by
  unfold eventsOf
  rw [List.filterMap_eq_nil_iff]
  intro a ha
  rcases finallyPart_mem sched chatId st a ha with hm | ⟨r, hm⟩ | hm <;>
    subst hm <;> rfl

theorem finishRun_fin (sched : Nat → Bool) (chatId : String) (escaped : Bool)
    (t1 : Nat) (st : St) :
    (finishRun sched chatId escaped t1 st).fin =
      (finallyPart sched chatId (exceptPart sched chatId escaped st).1).2.2 := by
  rfl

theorem finishRun_en_eq (sched : Nat → Bool) (chatId : String) (escaped : Bool)
    (t1 : Nat) (st : St) :
    (finishRun sched chatId escaped t1 st).en =
      (endPart sched chatId t1
        (finallyPart sched chatId (exceptPart sched chatId escaped st).1).1).2.2 := by
  rfl

theorem finishRun_delta (sched : Nat → Bool) (chatId : String) (escaped : Bool)
    (t1 : Nat) (st : St) :
    (finishRun sched chatId escaped t1 st).delta =
      (exceptPart sched chatId escaped st).2 ++
        ((finallyPart sched chatId (exceptPart sched chatId escaped st).1).2.1 ++
          (endPart sched chatId t1
            (finallyPart sched chatId (exceptPart sched chatId escaped st).1).1).2.1) := by
  rfl

theorem finishRun_end (sched : Nat → Bool) (chatId : String) (escaped : Bool)
    (t1 : Nat) (st : St) :
    ∃ r, (finishRun sched chatId escaped t1 st).en = some r ∧
      eventsOf (finishRun sched chatId escaped t1 st).delta = [Event.End t1 r] := by
  rcases finallyPart_st sched chatId (exceptPart sched chatId escaped st).1 with
    hf | hf
  all_goals {
    obtain ⟨r, hr, hev, _⟩ := endPart_some sched chatId t1 _ _ hf
    refine ⟨r, by rw [finishRun_en_eq]; exact hr, ?_⟩
    rw [finishRun_delta, eventsOf_append, eventsOf_append, eventsOf_exceptPart,
      eventsOf_finallyPart, hev]
    rfl }

theorem finishRun_term (sched : Nat → Bool) (chatId : String) (escaped : Bool)
    (t1 : Nat) (st : St)
    (h : escaped = true ∨ st.cache.get chatId = some (-1)) :
    (finishRun sched chatId escaped t1 st).fin = some (-1) ∧
    (finishRun sched chatId escaped t1 st).en = some (-1) ∧
    eventsOf (finishRun sched chatId escaped t1 st).delta = [Event.End t1 (-1)] := by
  have hentry : (exceptPart sched chatId escaped st).1.cache.get chatId =
      some (-1) := by
    cases escaped with
    | true => exact exceptPart_true_get ..
    | false =>
      rw [exceptPart_false]
      rcases h with h | h
      · exact absurd h (by simp)
      · exact h
  obtain ⟨hfin, hst⟩ := finallyPart_term sched chatId _ hentry
  obtain ⟨r, hr, hev, hr1⟩ := endPart_some sched chatId t1 _ _ hst
  have hrv : r = -1 := hr1 rfl
  subst hrv
  refine ⟨by rw [finishRun_fin]; exact hfin, by rw [finishRun_en_eq]; exact hr, ?_⟩
  rw [finishRun_delta, eventsOf_append, eventsOf_append, eventsOf_exceptPart,
    eventsOf_finallyPart, hev]
  rfl

theorem finishRun_noHalt {sched : Nat → Bool} (hs : ∀ k, sched k = false)
    (chatId : String) (t1 : Nat) (st : St)
    (h : st.cache.get chatId = some 1) :
    (finishRun sched chatId false t1 st).fin = some 1 ∧
    (finishRun sched chatId false t1 st).en = some 0 ∧
    Action.storeSet chatId 0 ∈ (finishRun sched chatId false t1 st).delta ∧
    eventsOf (finishRun sched chatId false t1 st).delta = [Event.End t1 0] := by
  have hentry : (exceptPart sched chatId false st).1.cache.get chatId = some 1 := by
    rw [exceptPart_false]; exact h
  obtain ⟨hfin, hst, hmem⟩ := finallyPart_noHalt hs chatId _ hentry
  obtain ⟨hen, hev⟩ := endPart_noHalt hs chatId t1 _ 0 hst
  refine ⟨by rw [finishRun_fin]; exact hfin, by rw [finishRun_en_eq]; exact hen,
    ?_, ?_⟩
  · rw [finishRun_delta]
    exact List.mem_append_right _ (List.mem_append_left _ hmem)
  · rw [finishRun_delta, eventsOf_append, eventsOf_append, eventsOf_exceptPart,
      eventsOf_finallyPart, hev]
    rfl

theorem finishRun_finTerm (sched : Nat → Bool) (chatId : String) (escaped : Bool)
    (t1 : Nat) (st : St)
    (h : (finishRun sched chatId escaped t1 st).fin = some (-1)) :
    ∀ k, Action.storeSet k 0 ∉ (finishRun sched chatId escaped t1 st).delta := by
  rw [finishRun_fin] at h
  obtain ⟨hnoset, _⟩ := finallyPart_finTerm sched chatId _ h
  intro k hm
  rw [finishRun_delta] at hm
  rcases List.mem_append.mp hm with hm | hm
  · rcases exceptPart_mem sched chatId escaped st _ hm with h1 | h1 | h1 <;>
      simp at h1
  · rcases List.mem_append.mp hm with hm | hm
    · exact hnoset k 0 hm
    · rcases endPart_mem sched chatId t1 _ _ hm with h1 | ⟨r, h1⟩ | ⟨r, h1⟩ <;>
        simp at h1

theorem finishRun_nopoll (sched : Nat → Bool) (chatId : String) (escaped : Bool)
    (t1 : Nat) (st : St) :
    ∀ k r, Action.poll k r ∉ (finishRun sched chatId escaped t1 st).delta := by
  intro k r hm
  rw [finishRun_delta] at hm
  rcases List.mem_append.mp hm with hm | hm
  · rcases exceptPart_mem sched chatId escaped st _ hm with h1 | h1 | h1 <;>
      simp at h1
  · rcases List.mem_append.mp hm with hm | hm
    · rcases finallyPart_mem sched chatId _ _ hm with h1 | ⟨r2, h1⟩ | h1 <;>
        simp at h1
    · rcases endPart_mem sched chatId t1 _ _ hm with h1 | ⟨r2, h1⟩ | ⟨r2, h1⟩ <;>
        simp at h1

theorem finishRun_noAQR (sched : Nat → Bool) (chatId : String) (escaped : Bool)
    (t1 : Nat) (st : St) :
    ∀ a ∈ (finishRun sched chatId escaped t1 st).delta, isAQRemit a = false := by
  intro a hm
  rw [finishRun_delta] at hm
  rcases List.mem_append.mp hm with hm | hm
  · rcases exceptPart_mem sched chatId escaped st _ hm with h1 | h1 | h1 <;>
      subst h1 <;> rfl
  · rcases List.mem_append.mp hm with hm | hm
    · rcases finallyPart_mem sched chatId _ _ hm with h1 | ⟨r2, h1⟩ | h1 <;>
        subst h1 <;> rfl
    · rcases endPart_mem sched chatId t1 _ _ hm with h1 | ⟨r2, h1⟩ | ⟨r2, h1⟩ <;>
        subst h1 <;> rfl

theorem finishRun_log (sched : Nat → Bool) (chatId : String) (t1 : Nat) (st : St) :
    Action.logError ∈ (finishRun sched chatId true t1 st).delta := by
  rw [finishRun_delta]
  exact List.mem_append_left _ (exceptPart_log ..)

theorem finishRun_log_decomp (sched : Nat → Bool) (chatId : String)
    (escaped : Bool) (t1 : Nat) (st : St) (d1 d2 : List Action)
    (h : (finishRun sched chatId escaped t1 st).delta =
      d1 ++ Action.logError :: d2) :
    (∀ e, Action.emit e ∈ d2 → e.isEnd = true) ∧
    Action.storeSet chatId (-1) ∈ d2 := by
  rw [finishRun_delta] at h
  rcases append_split h with ⟨e2, he, hd⟩ | ⟨e1, _, hb⟩
  · obtain ⟨hnoemit, hset⟩ := exceptPart_log_decomp sched chatId escaped st d1 e2 he
    constructor
    · intro e hee
      rw [hd] at hee
      rcases List.mem_append.mp hee with hee | hee
      · exact absurd hee (hnoemit e)
      · rcases List.mem_append.mp hee with hee | hee
        · exfalso
          rcases finallyPart_mem sched chatId _ _ hee with h1 | ⟨r2, h1⟩ | h1 <;>
            simp at h1
        · rcases endPart_mem sched chatId t1 _ _ hee with h1 | ⟨r2, h1⟩ | ⟨r2, h1⟩
          · simp at h1
          · simp at h1
          · injection h1 with h1
            rw [h1]
            rfl
    · rw [hd]
      exact List.mem_append_left _ hset
  · exfalso
    rcases append_split hb with ⟨f2, hf, _⟩ | ⟨f1, _, hb2⟩
    · have := mem_of_split hf
      rcases finallyPart_mem sched chatId _ _ this with h1 | ⟨r2, h1⟩ | h1 <;>
        simp at h1
    · have := mem_of_split hb2
      rcases endPart_mem sched chatId t1 _ _ this with h1 | ⟨r2, h1⟩ | ⟨r2, h1⟩ <;>
        simp at h1

/-! ### Lemmas about `beginPart` and the `generate` projections -/

theorem beginPart_delta (sched : Nat → Bool) {chatId : String} (st : St)
    (hid : (chatId == "") = false) :
    (beginPart sched chatId st).2 =
      (envStep sched chatId st).2 ++ [Action.storeSet chatId 1] := by
  unfold beginPart
  simp only [hid, Bool.false_eq_true, if_false]

theorem beginPart_get (sched : Nat → Bool) {chatId : String} (st : St)
    (hid : (chatId == "") = false) :
    (beginPart sched chatId st).1.cache.get chatId = some 1 := by
  unfold beginPart
  simp only [hid, Bool.false_eq_true, if_false]
  exact LocalCache.get_set_self ..

theorem beginPart_mem (sched : Nat → Bool) (chatId : String) (st : St) :
    ∀ a ∈ (beginPart sched chatId st).2,
      a = Action.haltWrite chatId ∨ a = Action.storeSet chatId 1 := by
  intro a ha
  by_cases hid : (chatId == "") = true
  · unfold beginPart at ha
    simp only [hid, if_true] at ha
    simp at ha
  · rw [Bool.not_eq_true] at hid
    rw [beginPart_delta sched st hid] at ha
    rcases List.mem_append.mp ha with ha | ha
    · exact Or.inl (mem_envStep ha)
    · simp only [List.mem_cons, List.not_mem_nil, or_false] at ha
      exact Or.inr ha

theorem eventsOf_beginPart (sched : Nat → Bool) (chatId : String) (st : St) :
    eventsOf (beginPart sched chatId st).2 = [] := by
  unfold eventsOf
  rw [List.filterMap_eq_nil_iff]
  intro a ha
  rcases beginPart_mem sched chatId st a ha with hm | hm <;> subst hm <;> rfl

theorem beginPart_halt (sched : Nat → Bool) {chatId : String} (st : St)
    (d1 d2 : List Action) (key : String)
    (h : (beginPart sched chatId st).2 = d1 ++ Action.haltWrite key :: d2) :
    d1 = [] ∧ d2 = [Action.storeSet chatId 1] := by
  by_cases hid : (chatId == "") = true
  · exfalso
    unfold beginPart at h
    simp only [hid, if_true] at h
    exact nil_split h
  · rw [Bool.not_eq_true] at hid
    rw [beginPart_delta sched st hid] at h
    rcases append_split h with ⟨e2, he, hd⟩ | ⟨e1, _, hb⟩
    · have hes : (envStep sched chatId st).2 = [Action.haltWrite chatId] := by
        rcases envStep_delta sched chatId st with hv | hv
        · rw [hv] at he; exact absurd he nil_split
        · exact hv
      rw [hes] at he
      obtain ⟨hd1, _, he2⟩ := singleton_split he
      exact ⟨hd1, by rw [hd, he2]; rfl⟩
    · exfalso
      obtain ⟨e1', _, hb1⟩ := cons_split hb (by simp)
      exact nil_split hb1

theorem generate_trace (svc : Service) (chatId messageId : String)
    (messages : List Message) (sched : Nat → Bool) (c0 : LocalCache Int)
    (t0 t1 : Nat) :
    (generate svc chatId messageId messages sched c0 t0 t1).trace =
      (beginPart sched chatId ⟨c0, 0⟩).2 ++
        Action.emit (Event.Init chatId messageId t0) ::
        ((chat_workflow svc sched chatId messages
            (beginPart sched chatId ⟨c0, 0⟩).1).delta ++
          (finishRun sched chatId
            (chat_workflow svc sched chatId messages
              (beginPart sched chatId ⟨c0, 0⟩).1).escaped t1
            (chat_workflow svc sched chatId messages
              (beginPart sched chatId ⟨c0, 0⟩).1).st).delta) := by
  rfl

theorem generate_finStatus (svc : Service) (chatId messageId : String)
    (messages : List Message) (sched : Nat → Bool) (c0 : LocalCache Int)
    (t0 t1 : Nat) :
    (generate svc chatId messageId messages sched c0 t0 t1).finStatus =
      (finishRun sched chatId
        (chat_workflow svc sched chatId messages
          (beginPart sched chatId ⟨c0, 0⟩).1).escaped t1
        (chat_workflow svc sched chatId messages
          (beginPart sched chatId ⟨c0, 0⟩).1).st).fin := by
  rfl

theorem generate_endStatus (svc : Service) (chatId messageId : String)
    (messages : List Message) (sched : Nat → Bool) (c0 : LocalCache Int)
    (t0 t1 : Nat) :
    (generate svc chatId messageId messages sched c0 t0 t1).endStatus =
      (finishRun sched chatId
        (chat_workflow svc sched chatId messages
          (beginPart sched chatId ⟨c0, 0⟩).1).escaped t1
        (chat_workflow svc sched chatId messages
          (beginPart sched chatId ⟨c0, 0⟩).1).st).en := by
  rfl

theorem generate_errored (svc : Service) (chatId messageId : String)
    (messages : List Message) (sched : Nat → Bool) (c0 : LocalCache Int)
    (t0 t1 : Nat) :
    (generate svc chatId messageId messages sched c0 t0 t1).errored =
      ((chat_workflow svc sched chatId messages
          (beginPart sched chatId ⟨c0, 0⟩).1).escaped ||
        (chat_workflow svc sched chatId messages
          (beginPart sched chatId ⟨c0, 0⟩).1).caught) := by
  rfl

theorem generate_searchResult (svc : Service) (chatId messageId : String)
    (messages : List Message) (sched : Nat → Bool) (c0 : LocalCache Int)
    (t0 t1 : Nat) :
    (generate svc chatId messageId messages sched c0 t0 t1).searchResult =
      (chat_workflow svc sched chatId messages
        (beginPart sched chatId ⟨c0, 0⟩).1).searchResult := by
  rfl

/-- Every safety property of `WfProps` holds for the dispatched
`chat_workflow` of either service, whenever the chat id is non-empty. -/
theorem chat_workflow_props (svc : Service) (sched : Nat → Bool) (chatId : String)
    (messages : List Message) (st : St) (hid : (chatId == "") = false) :
    WfProps sched chatId st (chat_workflow svc sched chatId messages st) := by
  unfold chat_workflow
  cases hk : svc.kind
  case chat =>
    rcases hl : svc.llm_client with _ | llm
    · rw [chatWf_eq_noLLM sched messages st hid hl]
      exact wfProps_except sched chatId st st none none (by simp)
    · rcases hout : (answerLoop sched chatId (llm messages).raises
          (llm messages).chunks st).out with _ | _ | _
      · rw [chatWf_eq_loop sched messages st llm hid hl (by rw [hout]; simp)]
        exact wfProps_loopOnly sched chatId _ _ st
      · rw [chatWf_eq_loop sched messages st llm hid hl (by rw [hout]; simp)]
        exact wfProps_loopOnly sched chatId _ _ st
      · rw [chatWf_eq_raised sched messages st llm hid hl hout]
        exact wfProps_answerExcept sched chatId st _ _ st none none (by simp)
  case rag =>
    rcases hl : svc.llm_client with _ | llm
    · rw [ragWf_eq_noLLM sched messages st hid hl]
      exact wfProps_except sched chatId st st none none (by simp)
    · rcases hm : messages.head? with _ | m0
      · rw [ragWf_eq_noMsg sched st llm hid hl hm]
        exact wfProps_except sched chatId st st none none (by simp)
      · rcases h1 : (ragR1 sched chatId llm m0.content st).out with _ | _ | _
        · rcases hs : svc.search (remove_think (ragR1 sched chatId llm
              m0.content st).acc) with u | att
          · rw [ragWf_eq_searchErr sched st llm m0 u hid hl hm (by rw [h1]; simp) hs]
            exact wfProps_rewriteExcept sched chatId st _ _ _ st _ _ (by simp)
          · rcases h2 : (ragR2 sched chatId llm m0.content
                (remove_think (ragR1 sched chatId llm m0.content st).acc) att
                (ragR1 sched chatId llm m0.content st).st).out with _ | _ | _
            · rw [ragWf_eq_ok sched st llm m0 att hid hl hm (by rw [h1]; simp) hs
                (by rw [h2]; simp)]
              exact wfProps_ragOk sched chatId _ _ st att _ _ _
            · rw [ragWf_eq_ok sched st llm m0 att hid hl hm (by rw [h1]; simp) hs
                (by rw [h2]; simp)]
              exact wfProps_ragOk sched chatId _ _ st att _ _ _
            · rw [ragWf_eq_r2raised sched st llm m0 att hid hl hm (by rw [h1]; simp) hs h2]
              exact wfProps_ragOkRaised sched chatId _ _ st att _ _ _
        · rcases hs : svc.search (remove_think (ragR1 sched chatId llm
              m0.content st).acc) with u | att
          · rw [ragWf_eq_searchErr sched st llm m0 u hid hl hm (by rw [h1]; simp) hs]
            exact wfProps_rewriteExcept sched chatId st _ _ _ st _ _ (by simp)
          · rcases h2 : (ragR2 sched chatId llm m0.content
                (remove_think (ragR1 sched chatId llm m0.content st).acc) att
                (ragR1 sched chatId llm m0.content st).st).out with _ | _ | _
            · rw [ragWf_eq_ok sched st llm m0 att hid hl hm (by rw [h1]; simp) hs
                (by rw [h2]; simp)]
              exact wfProps_ragOk sched chatId _ _ st att _ _ _
            · rw [ragWf_eq_ok sched st llm m0 att hid hl hm (by rw [h1]; simp) hs
                (by rw [h2]; simp)]
              exact wfProps_ragOk sched chatId _ _ st att _ _ _
            · rw [ragWf_eq_r2raised sched st llm m0 att hid hl hm (by rw [h1]; simp) hs h2]
              exact wfProps_ragOkRaised sched chatId _ _ st att _ _ _
        · rw [ragWf_eq_r1raised sched st llm m0 hid hl hm h1]
          exact wfProps_rewriteExcept sched chatId st _ _ _ st _ _ (by simp)

theorem mem_eventsOf {e : Event} {l : List Action} :
    e ∈ eventsOf l ↔ Action.emit e ∈ l := by
  constructor
  · intro h
    obtain ⟨a, ha, hea⟩ := List.mem_filterMap.mp h
    cases a <;> simp at hea
    rw [← hea]
    exact ha
  · exact emit_mem_eventsOf

theorem chat_workflow_empty (svc : Service) (sched : Nat → Bool)
    (messages : List Message) (st : St) {chatId : String}
    (hid : (chatId == "") = true) :
    chat_workflow svc sched chatId messages st = ⟨st, [], true, false, none, none⟩ := by
  unfold chat_workflow ChatService_chat_workflow RAGService_chat_workflow
  cases svc.kind <;> simp only [hid, if_true]

theorem beginPart_empty (sched : Nat → Bool) (st : St) {chatId : String}
    (hid : (chatId == "") = true) :
    beginPart sched chatId st = (st, []) := by
  unfold beginPart
  simp only [hid, if_true]

/-! ### The claims -/

/-- C1: for every non-empty session id, every message list, every backend
behavior, every halt interleaving and every initial store content, the
event stream produced by `generate` has the Init envelope as its first
element and the End envelope as its last, and no envelope — in particular
no second End — follows the End envelope. -/
theorem C1_init_first_end_last (svc : Service) (chatId messageId : String)
    (messages : List Message) (sched : Nat → Bool) (c0 : LocalCache Int)
    (t0 t1 : Nat) (hne : chatId ≠ "") :
    ∃ mid r,
      eventsOf (generate svc chatId messageId messages sched c0 t0 t1).trace =
        Event.Init chatId messageId t0 :: (mid ++ [Event.End t1 r]) ∧
      ∀ e ∈ mid, e.isEnd = false := by
  have hid : (chatId == "") = false := beq_eq_false_iff_ne.mpr hne
  obtain ⟨props1, -, -, -, -, -, -⟩ :=
    chat_workflow_props svc sched chatId messages (beginPart sched chatId ⟨c0, 0⟩).1 hid
  obtain ⟨r, -, hev⟩ := finishRun_end sched chatId
    (chat_workflow svc sched chatId messages (beginPart sched chatId ⟨c0, 0⟩).1).escaped
    t1 (chat_workflow svc sched chatId messages (beginPart sched chatId ⟨c0, 0⟩).1).st
  refine ⟨eventsOf (chat_workflow svc sched chatId messages
    (beginPart sched chatId ⟨c0, 0⟩).1).delta, r, ?_, ?_⟩
  · rw [generate_trace, eventsOf_append, eventsOf_beginPart, List.nil_append,
      eventsOf_cons_emit, eventsOf_append, hev]
  · intro e he
    exact props1 e (mem_eventsOf.mp he)

/-- Witness for C1 at the concrete run of spec scenario B. -/
theorem C1_witness :
    ∃ mid r,
      eventsOf (generate svcChat "s1" "m1" exMsgs noHalt emptyCache 10 20).trace =
        Event.Init "s1" "m1" 10 :: (mid ++ [Event.End 20 r]) ∧
      ∀ e ∈ mid, e.isEnd = false :=
  C1_init_first_end_last svcChat "s1" "m1" exMsgs noHalt emptyCache 10 20
    (by decide)

/-- C2 counterexample: in the concrete scenario-B run the pipeline's first
action is the ACTIVE Status-Store write, performed strictly before the Init
envelope is emitted, so the Init emission does not precede every
pipeline store operation. -/
theorem C2_counterexample :
    ¬ initBeforeStoreOps
        (generate svcChat "s1" "m1" exMsgs noHalt emptyCache 10 20).trace := by
  decide

/-- C2 (amended): the Init payload is created before any store access, and
the Init envelope is emitted before every Status-Store *read*; the only
pipeline store operations that may precede its emission are the single
ACTIVE write (performed when the session id is non-empty) and concurrent
halt writes; and when the session id is empty, no action at all precedes
the Init emission — it is the very first element of the trace. -/
theorem C2_amended_init_before_reads (svc : Service) (chatId messageId : String)
    (messages : List Message) (sched : Nat → Bool) (c0 : LocalCache Int)
    (t0 t1 : Nat) :
    (∃ pre rest,
      (generate svc chatId messageId messages sched c0 t0 t1).trace =
        pre ++ Action.emit (Event.Init chatId messageId t0) :: rest ∧
      ∀ a ∈ pre, a = Action.storeSet chatId 1 ∨ a = Action.haltWrite chatId) ∧
    (chatId = "" →
      ∃ rest,
        (generate svc chatId messageId messages sched c0 t0 t1).trace =
          Action.emit (Event.Init chatId messageId t0) :: rest) := by
  constructor
  · refine ⟨(beginPart sched chatId ⟨c0, 0⟩).2, _, generate_trace .., ?_⟩
    intro a ha
    rcases beginPart_mem sched chatId _ a ha with hm | hm
    · exact Or.inr hm
    · exact Or.inl hm
  · intro he
    have hid : (chatId == "") = true := by rw [he]; rfl
    refine ⟨(chat_workflow svc sched chatId messages ⟨c0, 0⟩).delta ++
      (finishRun sched chatId
        (chat_workflow svc sched chatId messages ⟨c0, 0⟩).escaped t1
        (chat_workflow svc sched chatId messages ⟨c0, 0⟩).st).delta, ?_⟩
    rw [generate_trace, beginPart_empty sched _ hid]
    rfl

/-- Witness for the amended C2: a concrete non-empty-id run whose prefix
before Init is the ACTIVE write, and a concrete empty-id run whose very
first action is the Init emission. -/
theorem C2_witness :
    (∃ pre rest,
      (generate svcChat "s1" "m1" exMsgs noHalt emptyCache 10 20).trace =
        pre ++ Action.emit (Event.Init "s1" "m1" 10) :: rest ∧
      ∀ a ∈ pre, a = Action.storeSet "s1" 1 ∨ a = Action.haltWrite "s1") ∧
    (∃ rest,
      (generate svcChat "" "m1" exMsgs noHalt emptyCache 10 20).trace =
        Action.emit (Event.Init "" "m1" 10) :: rest) :=
  ⟨(C2_amended_init_before_reads svcChat "s1" "m1" exMsgs noHalt
      emptyCache 10 20).1,
    (C2_amended_init_before_reads svcChat "" "m1" exMsgs noHalt
      emptyCache 10 20).2 rfl⟩

/-- C3 counterexample: a `halt_chat` write that lands strictly before the
run's ACTIVE write — and hence before the workflow body's next (first)
status poll — is overwritten by the ACTIVE write: Answer envelopes are
emitted after the halt write landed, and the End envelope carries
end_reason 0, not -1. -/
theorem C3_counterexample :
    (generate svcChat "s1" "m1" exMsgs (haltAt 0) emptyCache 10 20).trace =
      [Action.haltWrite "s1", Action.storeSet "s1" 1,
        Action.emit (Event.Init "s1" "m1" 10),
        Action.poll "s1" (some 1), Action.emit (Event.Answer "Hel"),
        Action.poll "s1" (some 1), Action.emit (Event.Answer "lo "),
        Action.poll "s1" (some 1), Action.emit (Event.Answer "world"),
        Action.storeGet "s1" (some 1), Action.storeSet "s1" 0,
        Action.storeGet "s1" (some 0), Action.emit (Event.End 20 0)] ∧
    (generate svcChat "s1" "m1" exMsgs (haltAt 0) emptyCache 10 20).endStatus =
      some 0 := by
  constructor <;> decide

/-- C3 (amended): whenever a halt write lands after the run's ACTIVE write
and strictly before a per-fragment status poll of the workflow body, the
stream emits no further Answer or Query Rewrite envelope after that write,
and the End envelope of the stream carries end_reason -1. -/
theorem C3_amended_halt_before_poll (svc : Service) (chatId messageId : String)
    (messages : List Message) (sched : Nat → Bool) (c0 : LocalCache Int)
    (t0 t1 : Nat) (pre post : List Action)
    (hne : chatId ≠ "")
    (hdec : (generate svc chatId messageId messages sched c0 t0 t1).trace =
      pre ++ Action.haltWrite chatId :: post)
    (hactive : Action.storeSet chatId 1 ∈ pre)
    (hpoll : ∃ r, Action.poll chatId r ∈ post) :
    (∀ a ∈ post, isAQRemit a = false) ∧
    (generate svc chatId messageId messages sched c0 t0 t1).endStatus =
      some (-1) ∧
    ∃ evs,
      eventsOf (generate svc chatId messageId messages sched c0 t0 t1).trace =
        evs ++ [Event.End t1 (-1)] := by
  have hid : (chatId == "") = false := beq_eq_false_iff_ne.mpr hne
  have hesc : (chat_workflow svc sched chatId messages
      (beginPart sched chatId ⟨c0, 0⟩).1).escaped = false := by
    rw [chat_workflow_escaped]; exact hid
  obtain ⟨-, props2, -, -, -, -, -⟩ :=
    chat_workflow_props svc sched chatId messages (beginPart sched chatId ⟨c0, 0⟩).1 hid
  rw [generate_trace] at hdec
  rcases append_split hdec with ⟨e2, he, -⟩ | ⟨e1, hpre, hb⟩
  · obtain ⟨hd1, -⟩ := beginPart_halt sched ⟨c0, 0⟩ pre e2 chatId he
    rw [hd1] at hactive
    exact absurd hactive (List.not_mem_nil _)
  · obtain ⟨e1', -, hb1⟩ := cons_split hb (by simp)
    rcases append_split hb1 with ⟨e2, hw, hpost⟩ | ⟨g, -, hf⟩
    · obtain ⟨-, hnoaqr, hget⟩ := props2 e1' e2 chatId hw
      obtain ⟨hfin, hen, hev⟩ := finishRun_term sched chatId
        (chat_workflow svc sched chatId messages
          (beginPart sched chatId ⟨c0, 0⟩).1).escaped t1
        (chat_workflow svc sched chatId messages
          (beginPart sched chatId ⟨c0, 0⟩).1).st (Or.inr hget)
      refine ⟨?_, ?_, ?_⟩
      · intro a ha
        rw [hpost] at ha
        rcases List.mem_append.mp ha with ha | ha
        · exact hnoaqr a ha
        · exact finishRun_noAQR sched chatId _ t1 _ a ha
      · rw [generate_endStatus]
        exact hen
      · refine ⟨Event.Init chatId messageId t0 ::
          eventsOf (chat_workflow svc sched chatId messages
            (beginPart sched chatId ⟨c0, 0⟩).1).delta, ?_⟩
        rw [generate_trace, eventsOf_append, eventsOf_beginPart, List.nil_append,
          eventsOf_cons_emit, eventsOf_append, hev]
        rfl
    · exfalso
      obtain ⟨r, hr⟩ := hpoll
      have : Action.poll chatId r ∈
          (finishRun sched chatId
            (chat_workflow svc sched chatId messages
              (beginPart sched chatId ⟨c0, 0⟩).1).escaped t1
            (chat_workflow svc sched chatId messages
              (beginPart sched chatId ⟨c0, 0⟩).1).st).delta := by
        rw [hf]
        exact List.mem_append_right _ (List.mem_cons_of_mem _ hr)
      exact finishRun_nopoll sched chatId _ t1 _ chatId r this

/-- Witness for the amended C3 at the concrete run of spec scenario C: the
halt lands between the first and second poll. -/
theorem C3_witness :
    (∀ a ∈ [Action.poll "s1" (some (-1)), Action.sentinel,
        Action.storeGet "s1" (some (-1)), Action.storeGet "s1" (some (-1)),
        Action.emit (Event.End 20 (-1))], isAQRemit a = false) ∧
    (generate svcChat "s1" "m1" exMsgs (haltAt 2) emptyCache 10 20).endStatus =
      some (-1) ∧
    ∃ evs,
      eventsOf (generate svcChat "s1" "m1" exMsgs (haltAt 2) emptyCache 10 20).trace =
        evs ++ [Event.End 20 (-1)] :=
  C3_amended_halt_before_poll svcChat "s1" "m1" exMsgs (haltAt 2) emptyCache 10 20
    [Action.storeSet "s1" 1, Action.emit (Event.Init "s1" "m1" 10),
      Action.poll "s1" (some 1), Action.emit (Event.Answer "Hel")]
    [Action.poll "s1" (some (-1)), Action.sentinel,
      Action.storeGet "s1" (some (-1)), Action.storeGet "s1" (some (-1)),
      Action.emit (Event.End 20 (-1))]
    (by decide) (by decide) (by decide) ⟨some (-1), by decide⟩

/-- C4: (1) a session whose workflow body runs to natural completion with
no halt write has a finalize read that is not TERMINATED, gets a COMPLETED
write, and its End envelope carries end_reason 0; (2) in every run in which
the finalize read *is* TERMINATED, no COMPLETED write occurs anywhere — the
finalize step leaves the status untouched. -/
theorem C4_natural_completion :
    (∀ (svc : Service) (chatId messageId : String) (messages : List Message)
        (sched : Nat → Bool) (c0 : LocalCache Int) (t0 t1 : Nat),
      chatId ≠ "" → (∀ k, sched k = false) →
      (generate svc chatId messageId messages sched c0 t0 t1).errored = false →
      pyStrEq (generate svc chatId messageId messages sched c0 t0 t1).finStatus
          (-1) = false ∧
      Action.storeSet chatId 0 ∈
        (generate svc chatId messageId messages sched c0 t0 t1).trace ∧
      (generate svc chatId messageId messages sched c0 t0 t1).endStatus = some 0 ∧
      ∃ evs,
        eventsOf (generate svc chatId messageId messages sched c0 t0 t1).trace =
          evs ++ [Event.End t1 0]) ∧
    (∀ (svc : Service) (chatId messageId : String) (messages : List Message)
        (sched : Nat → Bool) (c0 : LocalCache Int) (t0 t1 : Nat),
      (generate svc chatId messageId messages sched c0 t0 t1).finStatus =
        some (-1) →
      ∀ k, Action.storeSet k 0 ∉
        (generate svc chatId messageId messages sched c0 t0 t1).trace) := by
  constructor
  · intro svc chatId messageId messages sched c0 t0 t1 hne hs herr
    have hid : (chatId == "") = false := beq_eq_false_iff_ne.mpr hne
    have hesc : (chat_workflow svc sched chatId messages
        (beginPart sched chatId ⟨c0, 0⟩).1).escaped = false := by
      rw [chat_workflow_escaped]; exact hid
    have hcaught : (chat_workflow svc sched chatId messages
        (beginPart sched chatId ⟨c0, 0⟩).1).caught = false := by
      rw [generate_errored, hesc, Bool.false_or] at herr
      exact herr
    obtain ⟨-, -, -, -, -, props6, -⟩ :=
      chat_workflow_props svc sched chatId messages (beginPart sched chatId ⟨c0, 0⟩).1 hid
    have hbg : (beginPart sched chatId ⟨c0, 0⟩).1.cache.get chatId = some 1 :=
      beginPart_get sched ⟨c0, 0⟩ hid
    have hwst : (chat_workflow svc sched chatId messages
        (beginPart sched chatId ⟨c0, 0⟩).1).st.cache.get chatId = some 1 := by
      rw [props6 hs hbg hcaught]
      exact hbg
    have hfr := finishRun_noHalt hs chatId t1
      (chat_workflow svc sched chatId messages (beginPart sched chatId ⟨c0, 0⟩).1).st hwst
    obtain ⟨hfin, hen, hmem, hev⟩ := hfr
    refine ⟨?_, ?_, ?_, ?_⟩
    · rw [generate_finStatus, hesc, hfin]
      rfl
    · rw [generate_trace]
      refine List.mem_append_right _ (List.mem_cons_of_mem _
        (List.mem_append_right _ ?_))
      rw [hesc]
      exact hmem
    · rw [generate_endStatus, hesc]
      exact hen
    · refine ⟨Event.Init chatId messageId t0 ::
        eventsOf (chat_workflow svc sched chatId messages
          (beginPart sched chatId ⟨c0, 0⟩).1).delta, ?_⟩
      rw [generate_trace, eventsOf_append, eventsOf_beginPart, List.nil_append,
        eventsOf_cons_emit, eventsOf_append, hesc, hev]
      rfl
  · intro svc chatId messageId messages sched c0 t0 t1 hfin k hm
    rw [generate_finStatus] at hfin
    rw [generate_trace] at hm
    rcases List.mem_append.mp hm with hm | hm
    · rcases beginPart_mem sched chatId _ _ hm with h1 | h1 <;> simp at h1
    · rcases List.mem_cons.mp hm with hm | hm
      · exact absurd hm (by simp)
      · rcases List.mem_append.mp hm with hm | hm
        · by_cases hid : (chatId == "") = true
          · rw [chat_workflow_empty svc sched messages _ hid] at hm
            exact absurd hm (List.not_mem_nil _)
          · rw [Bool.not_eq_true] at hid
            obtain ⟨-, -, -, -, props5, -, -⟩ := chat_workflow_props svc sched
              chatId messages (beginPart sched chatId ⟨c0, 0⟩).1 hid
            obtain ⟨-, hv⟩ := props5 k 0 hm
            simp at hv
        · exact finishRun_finTerm sched chatId _ t1 _ hfin k hm

/-- Witness for C4: part 1 at the concrete scenario-B run, part 2 at the
concrete scenario-C run (whose finalize read is TERMINATED). -/
theorem C4_witness :
    (pyStrEq (generate svcChat "s1" "m1" exMsgs noHalt emptyCache 10 20).finStatus
        (-1) = false ∧
      Action.storeSet "s1" 0 ∈
        (generate svcChat "s1" "m1" exMsgs noHalt emptyCache 10 20).trace ∧
      (generate svcChat "s1" "m1" exMsgs noHalt emptyCache 10 20).endStatus =
        some 0 ∧
      ∃ evs,
        eventsOf (generate svcChat "s1" "m1" exMsgs noHalt emptyCache 10 20).trace =
          evs ++ [Event.End 20 0]) ∧
    ∀ k, Action.storeSet k 0 ∉
      (generate svcChat "s1" "m1" exMsgs (haltAt 2) emptyCache 10 20).trace :=
  ⟨C4_natural_completion.1 svcChat "s1" "m1" exMsgs noHalt emptyCache 10 20
      (by decide) (fun _ => rfl) (by decide),
    C4_natural_completion.2 svcChat "s1" "m1" exMsgs (haltAt 2) emptyCache 10 20
      (by decide)⟩

/-- C5 counterexample: `halt_chat` on a COMPLETED session overwrites the
status with TERMINATED, so COMPLETED is not preserved by every operation
other than a new begin. -/
theorem C5_counterexample :
    (LocalCache.get ⟨[("s1", (0 : Int))]⟩ "s1" = some 0) ∧
    applyOp "s1" ⟨[("s1", (0 : Int))]⟩ SessionOp.halt = ⟨[("s1", (-1 : Int))]⟩ ∧
    (applyOp "s1" ⟨[("s1", (0 : Int))]⟩ SessionOp.halt).get "s1" = some (-1) := by
  refine ⟨by decide, by decide, by decide⟩

/-- C5 (amended): under every sequence of `halt_chat` and finalize steps
(no new begin), the status set {COMPLETED, TERMINATED} is closed — a
session never returns to ACTIVE or becomes absent; TERMINATED is absorbing;
and the finalize step preserves COMPLETED.  (halt_chat, however, moves a
COMPLETED session to TERMINATED.) -/
theorem C5_amended_terminal (chatId : String) (_hne : chatId ≠ "") :
    (∀ (c : LocalCache Int) (ops : List SessionOp),
      (c.get chatId = some 0 ∨ c.get chatId = some (-1)) →
      ((ops.foldl (applyOp chatId) c).get chatId = some 0 ∨
        (ops.foldl (applyOp chatId) c).get chatId = some (-1))) ∧
    (∀ (c : LocalCache Int) (ops : List SessionOp),
      c.get chatId = some (-1) →
      (ops.foldl (applyOp chatId) c).get chatId = some (-1)) ∧
    (∀ c : LocalCache Int, c.get chatId = some 0 →
      (applyOp chatId c SessionOp.finalize).get chatId = some 0) := by
  have hhalt : ∀ c : LocalCache Int,
      (applyOp chatId c SessionOp.halt).get chatId = c.get chatId ∨
      (applyOp chatId c SessionOp.halt).get chatId = some (-1) := by
    intro c
    unfold applyOp halt_chat
    by_cases hid : (chatId == "") = true
    · simp only [hid, if_true]
      exact Or.inl trivial
    · rw [Bool.not_eq_true] at hid
      simp only [hid, Bool.false_eq_true, if_false]
      exact Or.inr (LocalCache.get_set_self ..)
  have hfinz : ∀ c : LocalCache Int,
      (applyOp chatId c SessionOp.finalize).get chatId = c.get chatId ∨
      (applyOp chatId c SessionOp.finalize).get chatId = some 0 := by
    intro c
    unfold applyOp finalizeStep
    by_cases hc : pyStrEq (c.get chatId) (-1) = true
    · simp only [hc, if_true]
      exact Or.inl trivial
    · rw [Bool.not_eq_true] at hc
      simp only [hc, Bool.false_eq_true, if_false]
      exact Or.inr (LocalCache.get_set_self ..)
  have hstep : ∀ (c : LocalCache Int) (op : SessionOp),
      (c.get chatId = some 0 ∨ c.get chatId = some (-1)) →
      ((applyOp chatId c op).get chatId = some 0 ∨
        (applyOp chatId c op).get chatId = some (-1)) := by
    intro c op hc
    cases op with
    | halt =>
      rcases hhalt c with h | h
      · rw [h]; exact hc
      · exact Or.inr h
    | finalize =>
      rcases hfinz c with h | h
      · rw [h]; exact hc
      · exact Or.inl h
  have hterm : ∀ (c : LocalCache Int) (op : SessionOp),
      c.get chatId = some (-1) →
      (applyOp chatId c op).get chatId = some (-1) := by
    intro c op hc
    cases op with
    | halt =>
      rcases hhalt c with h | h
      · rw [h]; exact hc
      · exact h
    | finalize =>
      have hpy : pyStrEq (c.get chatId) (-1) = true := (pyStrEq_term _).mpr hc
      unfold applyOp finalizeStep
      simp only [hpy, if_true]
      exact hc
  refine ⟨?_, ?_, ?_⟩
  · intro c ops
    induction ops generalizing c with
    | nil => intro hc; exact hc
    | cons op ops ih =>
      intro hc
      exact ih (applyOp chatId c op) (hstep c op hc)
  · intro c ops
    induction ops generalizing c with
    | nil => intro hc; exact hc
    | cons op ops ih =>
      intro hc
      exact ih (applyOp chatId c op) (hterm c op hc)
  · intro c hc
    have hpy : pyStrEq (c.get chatId) (-1) = false := by
      rw [hc]; rfl
    unfold applyOp finalizeStep
    simp only [hpy, Bool.false_eq_true, if_false]
    exact LocalCache.get_set_self ..

/-- Witness for the amended C5 at a concrete store. -/
theorem C5_witness :
    ((((⟨[("s1", (0 : Int))]⟩ : LocalCache Int).get "s1" = some 0 ∨
        (⟨[("s1", (0 : Int))]⟩ : LocalCache Int).get "s1" = some (-1)) →
      (([SessionOp.halt, SessionOp.finalize].foldl (applyOp "s1")
          ⟨[("s1", (0 : Int))]⟩).get "s1" = some 0 ∨
        ([SessionOp.halt, SessionOp.finalize].foldl (applyOp "s1")
          ⟨[("s1", (0 : Int))]⟩).get "s1" = some (-1))) ∧
      (applyOp "s1" ⟨[("s1", (0 : Int))]⟩ SessionOp.finalize).get "s1" = some 0) :=
  ⟨(C5_amended_terminal "s1" (by decide)).1 ⟨[("s1", (0 : Int))]⟩
      [SessionOp.halt, SessionOp.finalize],
    (C5_amended_terminal "s1" (by decide)).2.2 ⟨[("s1", (0 : Int))]⟩ (by decide)⟩

/-- C6: in every run in which the workflow body raises — whether the error
is caught at the workflow's own `except` or escapes to `generate`'s — the
pipeline logs the error; after any log no envelope other than the final End
is forwarded and a TERMINATED write follows; and the stream still closes
with a well-formed End envelope (the error is never re-raised past the
pipeline boundary: `generate` is total and always yields the End-terminated
trace). -/
theorem C6_error_boundary (svc : Service) (chatId messageId : String)
    (messages : List Message) (sched : Nat → Bool) (c0 : LocalCache Int)
    (t0 t1 : Nat)
    (herr : (generate svc chatId messageId messages sched c0 t0 t1).errored = true) :
    Action.logError ∈ (generate svc chatId messageId messages sched c0 t0 t1).trace ∧
    (∀ d1 d2,
      (generate svc chatId messageId messages sched c0 t0 t1).trace =
        d1 ++ Action.logError :: d2 →
      (∀ e, Action.emit e ∈ d2 → e.isEnd = true) ∧
      Action.storeSet chatId (-1) ∈ d2) ∧
    ∃ r evs,
      (generate svc chatId messageId messages sched c0 t0 t1).endStatus = some r ∧
      eventsOf (generate svc chatId messageId messages sched c0 t0 t1).trace =
        evs ++ [Event.End t1 r] := by
  obtain ⟨r, hr, hev⟩ := finishRun_end sched chatId
    (chat_workflow svc sched chatId messages
      (beginPart sched chatId ⟨c0, 0⟩).1).escaped t1
    (chat_workflow svc sched chatId messages
      (beginPart sched chatId ⟨c0, 0⟩).1).st
  refine ⟨?_, ?_, ?_⟩
  · rw [generate_trace]
    by_cases hesc : (chat_workflow svc sched chatId messages
        (beginPart sched chatId ⟨c0, 0⟩).1).escaped = true
    · refine List.mem_append_right _ (List.mem_cons_of_mem _
        (List.mem_append_right _ ?_))
      rw [hesc]
      exact finishRun_log ..
    · rw [Bool.not_eq_true] at hesc
      have hid : (chatId == "") = false := by
        rw [← chat_workflow_escaped svc sched chatId messages
          (beginPart sched chatId ⟨c0, 0⟩).1]
        exact hesc
      have hcaught : (chat_workflow svc sched chatId messages
          (beginPart sched chatId ⟨c0, 0⟩).1).caught = true := by
        rw [generate_errored, hesc, Bool.false_or] at herr
        exact herr
      obtain ⟨-, -, props3, -, -, -, -⟩ :=
        chat_workflow_props svc sched chatId messages
          (beginPart sched chatId ⟨c0, 0⟩).1 hid
      exact List.mem_append_right _ (List.mem_cons_of_mem _
        (List.mem_append_left _ (props3 hcaught)))
  · intro d1 d2 hdec
    rw [generate_trace] at hdec
    rcases append_split hdec with ⟨e2, he, -⟩ | ⟨e1, -, hb⟩
    · exfalso
      rcases beginPart_mem sched chatId _ _ (mem_of_split he) with h1 | h1 <;>
        simp at h1
    · obtain ⟨e1', -, hb1⟩ := cons_split hb (by simp)
      rcases append_split hb1 with ⟨e2, hw, hd2⟩ | ⟨g, -, hf⟩
      · by_cases hid : (chatId == "") = true
        · exfalso
          rw [chat_workflow_empty svc sched messages _ hid] at hw
          exact nil_split hw
        · rw [Bool.not_eq_true] at hid
          obtain ⟨-, -, -, props4, -, -, -⟩ :=
            chat_workflow_props svc sched chatId messages
              (beginPart sched chatId ⟨c0, 0⟩).1 hid
          obtain ⟨hnoemit, hset⟩ := props4 e1' e2 hw
          constructor
          · intro e hee
            rw [hd2] at hee
            rcases List.mem_append.mp hee with hee | hee
            · exact absurd hee (hnoemit e)
            · have he2 : e ∈ eventsOf (finishRun sched chatId
                  (chat_workflow svc sched chatId messages
                    (beginPart sched chatId ⟨c0, 0⟩).1).escaped t1
                  (chat_workflow svc sched chatId messages
                    (beginPart sched chatId ⟨c0, 0⟩).1).st).delta :=
                mem_eventsOf.mpr hee
              rw [hev] at he2
              rw [List.mem_singleton.mp he2]
              rfl
          · rw [hd2]
            exact List.mem_append_left _ hset
      · exact finishRun_log_decomp sched chatId _ t1 _ g d2 hf
  · refine ⟨r, Event.Init chatId messageId t0 ::
      eventsOf (chat_workflow svc sched chatId messages
        (beginPart sched chatId ⟨c0, 0⟩).1).delta, ?_, ?_⟩
    · rw [generate_endStatus]
      exact hr
    · rw [generate_trace, eventsOf_append, eventsOf_beginPart, List.nil_append,
        eventsOf_cons_emit, eventsOf_append, hev]
      rfl

/-- Witness for C6 at the concrete run over the backend that raises after
one fragment. -/
theorem C6_witness :
    Action.logError ∈
      (generate svcChatErr "s1" "m1" exMsgs noHalt emptyCache 10 20).trace ∧
    (∀ d1 d2,
      (generate svcChatErr "s1" "m1" exMsgs noHalt emptyCache 10 20).trace =
        d1 ++ Action.logError :: d2 →
      (∀ e, Action.emit e ∈ d2 → e.isEnd = true) ∧
      Action.storeSet "s1" (-1) ∈ d2) ∧
    ∃ r evs,
      (generate svcChatErr "s1" "m1" exMsgs noHalt emptyCache 10 20).endStatus =
        some r ∧
      eventsOf (generate svcChatErr "s1" "m1" exMsgs noHalt emptyCache 10 20).trace =
        evs ++ [Event.End 20 r] :=
  C6_error_boundary svcChatErr "s1" "m1" exMsgs noHalt emptyCache 10 20 (by decide)

/-- C7: in every retrieval-augmented run whose retrieval call succeeds with
attachment `att`, the event stream carries exactly one Search event and its
payload is `att` — whether or not the rewrite loop was interrupted early by
a non-ACTIVE status (the halt schedule is universally quantified). -/
theorem C7_single_search (svc : Service) (chatId messageId : String)
    (messages : List Message) (sched : Nat → Bool) (c0 : LocalCache Int)
    (t0 t1 : Nat) (att : Attachment)
    (hsr : (generate svc chatId messageId messages sched c0 t0 t1).searchResult =
      some (Except.ok att)) :
    (eventsOf (generate svc chatId messageId messages sched c0 t0 t1).trace).filter
      Event.isSearch = [Event.Search att] := by
  rw [generate_searchResult] at hsr
  by_cases hid : (chatId == "") = true
  · rw [chat_workflow_empty svc sched messages _ hid] at hsr
    exact Option.noConfusion hsr
  · rw [Bool.not_eq_true] at hid
    obtain ⟨-, -, -, -, -, -, props7⟩ :=
      chat_workflow_props svc sched chatId messages
        (beginPart sched chatId ⟨c0, 0⟩).1 hid
    obtain ⟨r, hr, hev⟩ := finishRun_end sched chatId
      (chat_workflow svc sched chatId messages
        (beginPart sched chatId ⟨c0, 0⟩).1).escaped t1
      (chat_workflow svc sched chatId messages
        (beginPart sched chatId ⟨c0, 0⟩).1).st
    rw [generate_trace, eventsOf_append, eventsOf_beginPart, List.nil_append,
      eventsOf_cons_emit, eventsOf_append, hev]
    have hstep : ∀ l : List Event,
        (Event.Init chatId messageId t0 :: l).filter Event.isSearch =
          l.filter Event.isSearch := fun l => rfl
    rw [hstep, List.filter_append, props7 att hsr]
    rfl

/-- Witness for C7 at the concrete RAG run in which a halt lands before the
first rewrite poll, interrupting the rewrite loop early. -/
theorem C7_witness :
    (eventsOf (generate svcRag "s1" "m1" exMsgs (haltAt 1) emptyCache 10 20).trace).filter
      Event.isSearch = [Event.Search exAttachment] :=
  C7_single_search svcRag "s1" "m1" exMsgs (haltAt 1) emptyCache 10 20 exAttachment
    (by rfl)

/-! ### Lemmas about `strFind` (Python `find` returns the first occurrence) -/

/-- If a prefix of `hay` equals `pat`, then `pat` is no longer than `hay`. -/
theorem take_pat_length_le {hay pat : List Char} (h : hay.take pat.length = pat) :
    pat.length ≤ hay.length := by
  have h2 := congrArg List.length h
  rw [List.length_take] at h2
  rcases Nat.le_total pat.length hay.length with hle | hle
  · exact hle
  · rw [Nat.min_eq_right hle] at h2
    omega

/-- `strFind` returns index 0 when the pattern is a prefix. -/
theorem strFind_pos {hay pat : List Char} (h : hay.take pat.length = pat) :
    strFind hay pat = some 0 := by
  cases hay with
  | nil =>
    simp only [strFind]
    rw [if_pos ⟨take_pat_length_le h, h⟩]
  | cons c t =>
    simp only [strFind]
    rw [if_pos ⟨take_pat_length_le h, h⟩]

/-- `strFind` finds nothing in the empty haystack (nonempty pattern). -/
theorem strFind_nil_neg {pat : List Char} (h : pat ≠ []) :
    strFind [] pat = none := by
  simp only [strFind]
  rw [if_neg]
  intro hc
  have h2 := hc.2
  rw [List.take_nil] at h2
  exact h h2.symm

/-- `strFind` steps over a position where the pattern is not a prefix. -/
theorem strFind_cons_neg {c : Char} {t pat : List Char}
    (h : (c :: t).take pat.length ≠ pat) :
    strFind (c :: t) pat = (strFind t pat).map (fun n => n + 1) := by
  conv_lhs => rw [strFind]
  rw [if_neg (fun hc => h hc.2)]

/-- If the pattern occurs at no index, `strFind` returns `none`
(Python `find` returns `-1`). -/
theorem strFind_none_of_no_occ (pat : List Char) :
    ∀ hay : List Char, (∀ i, (hay.drop i).take pat.length ≠ pat) →
      strFind hay pat = none := by
  intro hay
  induction hay with
  | nil =>
    intro h
    have hp : pat ≠ [] := by
      intro he
      exact h 0 (by rw [he]; rfl)
    exact strFind_nil_neg hp
  | cons c t ih =>
    intro h
    have ht : strFind t pat = none := ih (fun j => h (j + 1))
    rw [strFind_cons_neg (h 0), ht]
    rfl

/-- Conversely, `strFind ... = none` means the pattern occurs nowhere. -/
theorem strFind_no_occ_of_none (pat : List Char) :
    ∀ hay : List Char, strFind hay pat = none →
      ∀ i, (hay.drop i).take pat.length ≠ pat := by
  intro hay
  induction hay with
  | nil =>
    intro h i hc
    rw [List.drop_nil] at hc
    rw [strFind_pos hc] at h
    exact Option.noConfusion h
  | cons c t ih =>
    intro h i hc
    by_cases h0 : (c :: t).take pat.length = pat
    · rw [strFind_pos h0] at h
      exact Option.noConfusion h
    · rw [strFind_cons_neg h0] at h
      have ht : strFind t pat = none := by
        rcases hmap : strFind t pat with _ | n
        · rfl
        · rw [hmap] at h
          exact Option.noConfusion h
      cases i with
      | zero => exact h0 hc
      | succ j => exact ih ht j hc

/-- `strFind ... = some i` means the pattern occurs at `i` and at no
earlier index: Python `find` returns the first occurrence. -/
theorem strFind_some_spec (pat : List Char) :
    ∀ (hay : List Char) (i : Nat), strFind hay pat = some i →
      (hay.drop i).take pat.length = pat ∧
      ∀ j, j < i → (hay.drop j).take pat.length ≠ pat := by
  intro hay
  induction hay with
  | nil =>
    intro i h
    by_cases h0 : ([] : List Char).take pat.length = pat
    · rw [strFind_pos h0] at h
      injection h with h
      subst h
      exact ⟨h0, fun j hj => absurd hj (Nat.not_lt_zero j)⟩
    · have hp : pat ≠ [] := fun he => h0 (by rw [he]; rfl)
      rw [strFind_nil_neg hp] at h
      exact Option.noConfusion h
  | cons c t ih =>
    intro i h
    by_cases h0 : (c :: t).take pat.length = pat
    · rw [strFind_pos h0] at h
      injection h with h
      subst h
      exact ⟨h0, fun j hj => absurd hj (Nat.not_lt_zero j)⟩
    · rw [strFind_cons_neg h0] at h
      rcases hmap : strFind t pat with _ | n
      · rw [hmap] at h
        exact Option.noConfusion h
      · rw [hmap] at h
        injection h with h
        subst h
        obtain ⟨hocc, hmin⟩ := ih n hmap
        refine ⟨hocc, ?_⟩
        intro j hj
        cases j with
        | zero => exact h0
        | succ j2 => exact hmin j2 (Nat.lt_of_succ_lt_succ hj)

/-- C8 (code bug): at the input `"İ</THINK>xyz"` — U+0130 LATIN CAPITAL
LETTER I WITH DOT ABOVE before the marker — the first case-insensitive
occurrence of the 8-character `"</think>"` marker in the original text
starts at code-point index 1 and the remainder after it is `"xyz"`; yet
`remove_think` returns `"yz"`.  Python's `str.lower()` maps U+0130 to the
two code points U+0069 U+0307, so the index that `find` computes in the
lowered text (chat.py line 132) is shifted by one relative to the original
text, and the slice `text[idx + 8 :]` (line 133) drops the `x` that lies
*after* the marker — contradicting the function's own docstring and the
spec's description.  The last conjunct checks the embedding against a
non-length-changing non-ASCII lowering (U+212A KELVIN SIGN in the marker):
there the code and the claim agree, and so does the model. -/
theorem C8_code_bug :
    String.mk ((("İ</THINK>xyz".data.drop 1).take 8).flatMap pyLowerChar) =
      "</think>" ∧
    String.mk ("İ</THINK>xyz".data.drop (1 + 8)) = "xyz" ∧
    remove_think "İ</THINK>xyz" = "yz" ∧
    remove_think "İ</THINK>xyz" ≠
      String.mk ("İ</THINK>xyz".data.drop (1 + 8)) ∧
    remove_think "</THINK>abc" = "abc" := by
  refine ⟨by decide, by decide, by decide, by decide, by decide⟩

/-- C9: the per-fragment status gate of both workflows: (i) a poll lets a
fragment through exactly when the read status equals ACTIVE, (ii) the
absent read (`None`, a deleted or expired entry) fails the gate, (iii)/(iv)
in both the answer loop and the rewrite loop, any poll whose status fails
the gate is followed by exactly the stop sentinel — in particular no
further Answer or QueryRewrite emission from that stage — and (v)/(vi)
every envelope either loop emits is immediately preceded by a poll that
read ACTIVE. -/
theorem C9_poll_gate :
    (∀ r : Option Int, pyStrEq r 1 = true ↔ r = some 1) ∧
    pyStrEq none 1 = false ∧
    (∀ (sched : Nat → Bool) (chatId : String) (raises : Bool)
        (chunks : List String) (st : St) (d1 d2 : List Action)
        (key : String) (r : Option Int),
      (answerLoop sched chatId raises chunks st).delta =
        d1 ++ Action.poll key r :: d2 →
      pyStrEq r 1 = false →
      d2 = [Action.sentinel] ∧ ∀ a ∈ d2, isAQRemit a = false) ∧
    (∀ (sched : Nat → Bool) (chatId : String) (raises : Bool)
        (chunks : List String) (acc : String) (st : St) (d1 d2 : List Action)
        (key : String) (r : Option Int),
      (rewriteLoop sched chatId raises chunks acc st).delta =
        d1 ++ Action.poll key r :: d2 →
      pyStrEq r 1 = false →
      d2 = [Action.sentinel] ∧ ∀ a ∈ d2, isAQRemit a = false) ∧
    (∀ (sched : Nat → Bool) (chatId : String) (raises : Bool)
        (chunks : List String) (st : St) (d1 d2 : List Action) (e : Event),
      (answerLoop sched chatId raises chunks st).delta =
        d1 ++ Action.emit e :: d2 →
      ∃ d0, d1 = d0 ++ [Action.poll chatId (some 1)]) ∧
    (∀ (sched : Nat → Bool) (chatId : String) (raises : Bool)
        (chunks : List String) (acc : String) (st : St) (d1 d2 : List Action)
        (e : Event),
      (rewriteLoop sched chatId raises chunks acc st).delta =
        d1 ++ Action.emit e :: d2 →
      ∃ d0, d1 = d0 ++ [Action.poll chatId (some 1)]) := by
  refine ⟨pyStrEq_one, rfl, ?_, ?_, ?_, ?_⟩
  · intro sched chatId raises chunks st d1 d2 key r h hr
    have h2 := answerLoop_poll sched chatId raises chunks st d1 d2 key r h hr
    refine ⟨h2, ?_⟩
    intro a ha
    rw [h2] at ha
    rw [List.mem_singleton.mp ha]
    rfl
  · intro sched chatId raises chunks acc st d1 d2 key r h hr
    have h2 := rewriteLoop_poll sched chatId raises chunks acc st d1 d2 key r h hr
    refine ⟨h2, ?_⟩
    intro a ha
    rw [h2] at ha
    rw [List.mem_singleton.mp ha]
    rfl
  · intro sched chatId raises chunks st d1 d2 e h
    exact answerLoop_emit_after sched chatId raises chunks st d1 d2 e h
  · intro sched chatId raises chunks acc st d1 d2 e h
    exact rewriteLoop_emit_after sched chatId raises chunks acc st d1 d2 e h

/-- Witness for C9 at concrete loops: over an absent store entry each loop
breaks with the sentinel immediately after the failed poll, and an emitted
fragment is gated by an immediately preceding ACTIVE poll. -/
theorem C9_witness :
    ([Action.sentinel] = [Action.sentinel] ∧
      ∀ a ∈ [Action.sentinel], isAQRemit a = false) ∧
    ([Action.sentinel] = [Action.sentinel] ∧
      ∀ a ∈ [Action.sentinel], isAQRemit a = false) ∧
    (∃ d0, [Action.poll "s1" (some 1)] = d0 ++ [Action.poll "s1" (some 1)]) ∧
    (∃ d0, [Action.poll "s1" (some 1)] = d0 ++ [Action.poll "s1" (some 1)]) :=
  ⟨C9_poll_gate.2.2.1 noHalt "s1" false ["a"] ⟨⟨[]⟩, 0⟩ [] [Action.sentinel]
      "s1" none (by decide) (by decide),
    C9_poll_gate.2.2.2.1 noHalt "s1" false ["a"] "" ⟨⟨[]⟩, 0⟩ [] [Action.sentinel]
      "s1" none (by decide) (by decide),
    C9_poll_gate.2.2.2.2.1 noHalt "s1" false ["a"] ⟨⟨[("s1", (1 : Int))]⟩, 0⟩
      [Action.poll "s1" (some 1)] [] (Event.Answer "a") (by decide),
    C9_poll_gate.2.2.2.2.2 noHalt "s1" false ["a"] "" ⟨⟨[("s1", (1 : Int))]⟩, 0⟩
      [Action.poll "s1" (some 1)] [] (Event.QueryRewrite "a") (by decide)⟩

/-- C10: `LocalCache.close` clears every entry — afterwards every `get` is
absent, every membership test is false and the key listing is empty — and a
second `close` succeeds and changes nothing. -/
theorem C10_close_clears (α : Type) (c : LocalCache α) (k : String) :
    (c.close).get k = none ∧ (c.close).existsKey k = false ∧
    (c.close).keys "*" = [] ∧ (c.close).close = c.close := by
  exact ⟨rfl, rfl, rfl, rfl⟩

end DemoRag

